import Mathlib

/-!
Verification development for the `fraggen` GraphQL fragment generator
(`src/lib.rs`).  The definitions below are a shallow embedding of the
generator: the apollo-parser AST pieces the code consumes are modelled as
plain inductive data, the output sink is a list of emitted lines (one per
`writeln!`), and the generator state (`resolved` map, `scalar_type_names`
set) is threaded explicitly.  Hash-based containers of the source are
modelled as association lists / lists used only through lookup and
membership; `VecDeque::capacity()` is modelled as a parameter `cap`
(an allocator-chosen bound that is at least the queue length and constant
throughout the resolver loop, since the loop never grows the queue beyond
its initial length).  `Option`-returning AST accessors that can fail only
on malformed parse trees (`name()`, `ty()` of a field, inner type of a
list) are modelled as total fields, because `generate` aborts on any parse
error before `execute` runs; the accessors whose `None` case is reachable
on well-formed documents (`implements_interfaces`, `fields_definition`,
`input_fields_definition`, `union_member_types`, `arguments_definition`)
are kept as `Option`.
-/

namespace Fraggen

/-- Wrapped type references as consumed by `write_field`: a named type,
a list type, a non-null named type, or a non-null list type (the source's
`NonNullType` node contains either a named type or a list type, whose
element type is read directly). -/
inductive GType where
  | named (name : String)
  | list (ty : GType)
  | nonNullNamed (name : String)
  | nonNullList (ty : GType)
  deriving DecidableEq, Repr

/-- Argument declaration (`InputValueDefinition` inside an
`ArgumentsDefinition`): the source reads only its name when rendering. -/
structure ArgumentDef where
  name : String
  ty : GType
  deriving DecidableEq, Repr

/-- Field declaration: name, wrapped type, optional argument list
(`arguments_definition`). -/
structure FieldDef where
  name : String
  ty : GType
  args : Option (List ArgumentDef)
  deriving DecidableEq, Repr

/-- Interface type definition: name, optional `implements` clause
(list of referenced interface names), optional fields block. -/
structure InterfaceDef where
  name : String
  implements : Option (List String)
  fields : Option (List FieldDef)
  deriving DecidableEq, Repr

/-- Object type definition. -/
structure ObjectDef where
  name : String
  implements : Option (List String)
  fields : Option (List FieldDef)
  deriving DecidableEq, Repr

/-- Union type definition: name and optional member-name list. -/
structure UnionDef where
  name : String
  members : Option (List String)
  deriving DecidableEq, Repr

/-- Input-object field declaration (`InputValueDefinition`). -/
structure InputFieldDef where
  name : String
  ty : GType
  deriving DecidableEq, Repr

/-- Input-object type definition. -/
structure InputObjectDef where
  name : String
  fields : Option (List InputFieldDef)
  deriving DecidableEq, Repr

/-- Enum type definition (only the name is consumed). -/
structure EnumDef where
  name : String
  deriving DecidableEq, Repr

/-- Scalar type definition (only the name is consumed). -/
structure ScalarDef where
  name : String
  deriving DecidableEq, Repr

/-- Top-level schema definition, mirroring the `Definition` match in
`execute`; `otherDef` stands for the kinds the `_ => ()` arm drops. -/
inductive Definition where
  | enumDef (d : EnumDef)
  | scalarDef (d : ScalarDef)
  | interfaceDef (d : InterfaceDef)
  | unionDef (d : UnionDef)
  | objectDef (d : ObjectDef)
  | inputObjectDef (d : InputObjectDef)
  | otherDef
  deriving DecidableEq, Repr

/-- Error type, mirroring `FragmentGeneratorError`.  The `Io` and `Parse`
variants arise only from the external sink and parser, which are outside
the embedding (the sink is a pure list and `execute` runs only after a
successful parse), so only the `Schema(&'static str)` variant is
reachable here. -/
inductive FragmentGeneratorError where
  | schema (msg : String)
  deriving DecidableEq, Repr

/-- Generator configuration: fragment-name prefix and suffix and the
`add_typename` flag, the immutable fields of `FragmentGenerator`. -/
structure Config where
  pre : String
  suf : String
  add_typename : Bool
  deriving DecidableEq, Repr

/-- Mutable generator state: the `resolved` map (modelled as an
association list with map semantics), the `scalar_type_names` set
(modelled as a list used only through membership), and the output sink
(one entry per emitted line). -/
structure GenState where
  resolved : List (String × List String)
  scalarTypeNames : List String
  out : List String
  deriving DecidableEq, Repr

/-- The five built-in scalar names preloaded by `FragmentGenerator::new`. -/
def builtinScalarNames : List String :=
  ["Int", "Float", "String", "ID", "Boolean"]

/-- Initial state built by `FragmentGenerator::new`: empty resolved map,
built-in scalars, empty sink. -/
def initState : GenState :=
  { resolved := [], scalarTypeNames := builtinScalarNames, out := [] }

/-- Keyed lookup in the `resolved` map (`HashMap::get`). -/
def lookupResolved (resolved : List (String × List String)) (k : String) :
    Option (List String) :=
  (resolved.find? (fun p => p.1 == k)).map (fun p => p.2)

/-- Insertion into the `resolved` map (`HashMap::insert`): one entry per
key, a reinserted key overwrites. -/
def insertResolved (resolved : List (String × List String)) (k : String)
    (v : List String) : List (String × List String) :=
  (k, v) :: resolved.filter (fun p => p.1 != k)

/-- Fragment naming, `fragment_name`: `prefix + type name + suffix`. -/
def fragmentName (cfg : Config) (typeName : String) : String :=
  cfg.pre ++ typeName ++ cfg.suf

/-- Unwrapping loop of `write_field`: strip `List` and `NonNull` wrappers
until a bare named type remains. -/
def underlyingName : GType → String
  | .named n => n
  | .list t => underlyingName t
  | .nonNullNamed n => n
  | .nonNullList t => underlyingName t

/-- Argument-list rendering in `write_field_with_named_type`: absent
argument list renders as the empty string, a present one as a single
parenthesized line joining `name: $name` entries with `", "`. -/
def renderArglist (args : Option (List ArgumentDef)) : String :=
  match args with
  | none => ""
  | some argdefs =>
      "(" ++ String.intercalate ", "
        (argdefs.map (fun a => a.name ++ ": $" ++ a.name)) ++ ")"

/-- Line rendering of `write_field_with_named_type`: a scalar-set member
renders as one live selection line, anything else as a three-line
commented placeholder block referencing the target fragment. -/
def writeFieldWithNamedType (cfg : Config) (scalars : List String)
    (fieldName typeName : String) (args : Option (List ArgumentDef)) :
    List String :=
  let arglist := renderArglist args
  if typeName ∈ scalars then
    ["  " ++ fieldName ++ arglist]
  else
    let fragName := fragmentName cfg typeName
    ["  # " ++ fieldName ++ arglist ++ " \x7b",
     "  #   ..." ++ fragName,
     "  # \x7d"]

/-- The `write_field` wrapper: strip wrappers, then render. -/
def writeField (cfg : Config) (scalars : List String) (fieldName : String) :
    GType → Option (List ArgumentDef) → List String
  | .named n, args => writeFieldWithNamedType cfg scalars fieldName n args
  | .list t, args => writeField cfg scalars fieldName t args
  | .nonNullNamed n, args =>
      writeFieldWithNamedType cfg scalars fieldName n args
  | .nonNullList t, args => writeField cfg scalars fieldName t args

/-- Field-set accumulation of `inherited_fields`: union (as a list used
via membership) of the resolved field lists of all implemented
interfaces; a missing entry is a hard `Schema` error. -/
def inheritedFieldsGo (resolved : List (String × List String)) :
    List String → Except FragmentGeneratorError (List String)
  | [] => .ok []
  | n :: rest =>
      match lookupResolved resolved n with
      | none => .error (.schema "couldn't resolve implemented interface type")
      | some fs =>
          match inheritedFieldsGo resolved rest with
          | .error e => .error e
          | .ok acc => .ok (fs ++ acc)

/-- The `inherited_fields` method: no `implements` clause yields the
empty set. -/
def inheritedFields (resolved : List (String × List String))
    (implements : Option (List String)) :
    Except FragmentGeneratorError (List String) :=
  match implements with
  | none => .ok []
  | some ns => inheritedFieldsGo resolved ns

/-- Per-field loop of `write_fields`: skip inherited names, render the
rest in declaration order, collecting the emitted lines and the
non-skipped (own) field names. -/
def writeFieldsLoop (cfg : Config) (scalars : List String)
    (inherited : List String) : List FieldDef → List String × List String
  | [] => ([], [])
  | f :: rest =>
      if f.name ∈ inherited then writeFieldsLoop cfg scalars inherited rest
      else
        let lines := writeField cfg scalars f.name f.ty f.args
        let (restLines, restOwn) := writeFieldsLoop cfg scalars inherited rest
        (lines ++ restLines, f.name :: restOwn)

/-- The `write_fields` method: missing fields block is a `Schema` error;
otherwise compute the inherited set (which may fail) and run the loop. -/
def writeFields (cfg : Config) (scalars : List String)
    (resolved : List (String × List String))
    (fieldsOpt : Option (List FieldDef))
    (implements : Option (List String)) :
    Except FragmentGeneratorError (List String × List String) :=
  match fieldsOpt with
  | none => .error (.schema "type has no fields")
  | some fs =>
      match inheritedFields resolved implements with
      | .error e => .error e
      | .ok inh => .ok (writeFieldsLoop cfg scalars inh fs)

/-- Per-field loop of `write_input_fields`: render every input field
(no argument list, no inheritance) and collect the names. -/
def writeInputFieldsLoop (cfg : Config) (scalars : List String) :
    List InputFieldDef → List String × List String
  | [] => ([], [])
  | f :: rest =>
      let lines := writeField cfg scalars f.name f.ty none
      let (restLines, restOwn) := writeInputFieldsLoop cfg scalars rest
      (lines ++ restLines, f.name :: restOwn)

/-- The `write_input_fields` method: missing fields block is a `Schema`
error; otherwise rendering never fails. -/
def writeInputFields (cfg : Config) (scalars : List String)
    (fieldsOpt : Option (List InputFieldDef)) :
    Except FragmentGeneratorError (List String × List String) :=
  match fieldsOpt with
  | none => .error (.schema "input object has no fields")
  | some fs => .ok (writeInputFieldsLoop cfg scalars fs)

/-- Lines written by `write_interface_fragment` together with the
resolved own-field list (or the error after which the method aborts,
with the lines already written up to that point). -/
def interfaceFragmentParts (cfg : Config) (scalars : List String)
    (resolved : List (String × List String)) (d : InterfaceDef) :
    List String × Except FragmentGeneratorError (List String) :=
  let fragName := fragmentName cfg d.name
  let header := "fragment " ++ fragName ++ " on " ++ d.name ++ " \x7b"
  let spreads :=
    match d.implements with
    | none => []
    | some ns => ns.map (fun n => "  ..." ++ fragmentName cfg n)
  match writeFields cfg scalars resolved d.fields d.implements with
  | .error e => ([header] ++ spreads, .error e)
  | .ok (fieldLines, own) =>
      ([header] ++ spreads ++ fieldLines ++ ["\x7d", ""], .ok own)

/-- Lines written by `write_union_fragment`: header, then for each member
the inline-fragment opener, the member-fragment spread line (which the
source suffixes with a spurious opening brace), and a closing line;
missing member list is a `Schema` error raised after the header. -/
def unionFragmentParts (cfg : Config) (d : UnionDef) :
    List String × Except FragmentGeneratorError Unit :=
  let fragName := fragmentName cfg d.name
  let header := "fragment " ++ fragName ++ " on " ++ d.name ++ " \x7b"
  match d.members with
  | none => ([header], .error (.schema "union has no members"))
  | some ms =>
      let memberLines :=
        (ms.map (fun m =>
          ["  ... on " ++ m ++ " \x7b",
           "    ..." ++ fragmentName cfg m ++ " \x7b",
           "  \x7d"])).flatten
      ([header] ++ memberLines ++ ["\x7d", ""], .ok ())

/-- Lines written by `write_object_fragment` together with the resolved
own-field list: header, optional `__typename` line, interface spreads,
own fields, closer. -/
def objectFragmentParts (cfg : Config) (scalars : List String)
    (resolved : List (String × List String)) (d : ObjectDef) :
    List String × Except FragmentGeneratorError (List String) :=
  let fragName := fragmentName cfg d.name
  let header := "fragment " ++ fragName ++ " on " ++ d.name ++ " \x7b"
  let tn := if cfg.add_typename then ["  __typename"] else []
  let spreads :=
    match d.implements with
    | none => []
    | some ns => ns.map (fun n => "  ..." ++ fragmentName cfg n)
  match writeFields cfg scalars resolved d.fields d.implements with
  | .error e => ([header] ++ tn ++ spreads, .error e)
  | .ok (fieldLines, own) =>
      ([header] ++ tn ++ spreads ++ fieldLines ++ ["\x7d", ""], .ok own)

/-- Lines written by `write_input_object_fragment` together with the
resolved own-field list: header, optional `__typename` line, input
fields, closer. -/
def inputObjectFragmentParts (cfg : Config) (scalars : List String)
    (d : InputObjectDef) :
    List String × Except FragmentGeneratorError (List String) :=
  let fragName := fragmentName cfg d.name
  let header := "fragment " ++ fragName ++ " on " ++ d.name ++ " \x7b"
  let tn := if cfg.add_typename then ["  __typename"] else []
  match writeInputFields cfg scalars d.fields with
  | .error e => ([header] ++ tn, .error e)
  | .ok (fieldLines, own) =>
      ([header] ++ tn ++ fieldLines ++ ["\x7d", ""], .ok own)

/-- Stateful `write_interface_fragment`: append the lines; on success
record the own fields under the type name. -/
def writeInterfaceFragment (cfg : Config) (st : GenState)
    (d : InterfaceDef) : GenState × Option FragmentGeneratorError :=
  match interfaceFragmentParts cfg st.scalarTypeNames st.resolved d with
  | (lines, .error e) => ({ st with out := st.out ++ lines }, some e)
  | (lines, .ok own) =>
      let st' := { st with out := st.out ++ lines,
                           resolved := insertResolved st.resolved d.name own }
      (st', none)

/-- Stateful `write_union_fragment`: append the lines; nothing is ever
recorded in the resolved map for a union. -/
def writeUnionFragment (cfg : Config) (st : GenState) (d : UnionDef) :
    GenState × Option FragmentGeneratorError :=
  match unionFragmentParts cfg d with
  | (lines, .error e) => ({ st with out := st.out ++ lines }, some e)
  | (lines, .ok _) => ({ st with out := st.out ++ lines }, none)

/-- Stateful `write_object_fragment`. -/
def writeObjectFragment (cfg : Config) (st : GenState) (d : ObjectDef) :
    GenState × Option FragmentGeneratorError :=
  match objectFragmentParts cfg st.scalarTypeNames st.resolved d with
  | (lines, .error e) => ({ st with out := st.out ++ lines }, some e)
  | (lines, .ok own) =>
      let st' := { st with out := st.out ++ lines,
                           resolved := insertResolved st.resolved d.name own }
      (st', none)

/-- Stateful `write_input_object_fragment`. -/
def writeInputObjectFragment (cfg : Config) (st : GenState)
    (d : InputObjectDef) : GenState × Option FragmentGeneratorError :=
  match inputObjectFragmentParts cfg st.scalarTypeNames d with
  | (lines, .error e) => ({ st with out := st.out ++ lines }, some e)
  | (lines, .ok own) =>
      let st' := { st with out := st.out ++ lines,
                           resolved := insertResolved st.resolved d.name own }
      (st', none)

/-- Kind-wise collection of definitions, mirroring the single pushing
pass at the top of `execute` (document order is preserved per kind). -/
def enumDefs (ds : List Definition) : List EnumDef :=
  ds.filterMap (fun d => match d with | .enumDef e => some e | _ => none)

/-- Scalar definitions of the document, in document order. -/
def scalarDefs (ds : List Definition) : List ScalarDef :=
  ds.filterMap (fun d => match d with | .scalarDef e => some e | _ => none)

/-- Interface definitions of the document, in document order (the
initial contents of the resolver worklist). -/
def interfaceDefs (ds : List Definition) : List InterfaceDef :=
  ds.filterMap (fun d => match d with | .interfaceDef e => some e | _ => none)

/-- Union definitions of the document, in document order. -/
def unionDefs (ds : List Definition) : List UnionDef :=
  ds.filterMap (fun d => match d with | .unionDef e => some e | _ => none)

/-- Object definitions of the document, in document order. -/
def objectDefs (ds : List Definition) : List ObjectDef :=
  ds.filterMap (fun d => match d with | .objectDef e => some e | _ => none)

/-- Input-object definitions of the document, in document order. -/
def inputObjectDefs (ds : List Definition) : List InputObjectDef :=
  ds.filterMap
    (fun d => match d with | .inputObjectDef e => some e | _ => none)

/-- The interface worklist loop of `execute` (step 3): pop the front;
an interface with no `implements` clause is written at once; otherwise,
if some referenced name is not yet resolved, increment the retry counter,
fail once it exceeds `cap` (the worklist's capacity), else push the
interface to the back; when all references are resolved, write it. -/
def resolveInterfaces (cfg : Config) (cap : Nat) :
    List InterfaceDef → Nat → GenState →
    GenState × Option FragmentGeneratorError
  | [], _, st => (st, none)
  | d :: rest, recursions, st =>
      match d.implements with
      | none =>
          match writeInterfaceFragment cfg st d with
          | (st', some e) => (st', some e)
          | (st', none) => resolveInterfaces cfg cap rest recursions st'
      | some names =>
          if names.any (fun n => (lookupResolved st.resolved n).isNone) then
            if recursions + 1 > cap then
              (st, some (.schema
                "recursion limit reached while resolving interface hierarchy"))
            else
              resolveInterfaces cfg cap (rest ++ [d]) (recursions + 1) st
          else
            match writeInterfaceFragment cfg st d with
            | (st', some e) => (st', some e)
            | (st', none) => resolveInterfaces cfg cap rest recursions st'
  termination_by queue recursions _ => queue.length + (cap + 1 - recursions)
  decreasing_by
    · simp only [List.length_cons]; omega
    · simp only [List.length_append, List.length_cons, List.length_nil]
      omega
    · simp only [List.length_cons]; omega

/-- Sequential driver for the per-kind `for` loops of `execute` steps
4 to 6: run the writer over each definition, aborting on the first
error. -/
def runList (write : GenState → α → GenState × Option FragmentGeneratorError)
    (st : GenState) : List α → GenState × Option FragmentGeneratorError
  | [] => (st, none)
  | d :: rest =>
      match write st d with
      | (st', some e) => (st', some e)
      | (st', none) => runList write st' rest

/-- Steps 1 and 2 of `execute`: insert every declared enum name, then
every declared scalar name, into the scalar set. -/
def withScalars (ds : List Definition) (st0 : GenState) : GenState :=
  { st0 with scalarTypeNames :=
      st0.scalarTypeNames ++ (enumDefs ds).map EnumDef.name
        ++ (scalarDefs ds).map ScalarDef.name }

/-- The `execute` method: collect definitions by kind, add enum then
scalar names to the scalar set (steps 1 and 2), resolve and write
interfaces (step 3), then unions, objects and input objects (steps
4 to 6). -/
def execute (cfg : Config) (cap : Nat) (ds : List Definition)
    (st0 : GenState) : GenState × Option FragmentGeneratorError :=
  match resolveInterfaces cfg cap (interfaceDefs ds) 0 (withScalars ds st0) with
  | (st, some e) => (st, some e)
  | (st, none) =>
  match runList (writeUnionFragment cfg) st (unionDefs ds) with
  | (st, some e) => (st, some e)
  | (st, none) =>
  match runList (writeObjectFragment cfg) st (objectDefs ds) with
  | (st, some e) => (st, some e)
  | (st, none) => runList (writeInputObjectFragment cfg) st (inputObjectDefs ds)

/-- The public `generate` entry point, after the external parse step
succeeded: run `execute` from the fresh state of
`FragmentGenerator::new`. -/
def generate (cfg : Config) (cap : Nat) (ds : List Definition) :
    GenState × Option FragmentGeneratorError :=
  execute cfg cap ds initState

/-- The configuration the repository's own tests use: prefix `My`,
suffix `Fields`, type marker enabled. -/
def cfgMy : Config := { pre := "My", suf := "Fields", add_typename := true }

/-- Total number of occurrences of a character across a list of emitted
lines (used to audit brace balance of a fragment). -/
def charCount (c : Char) (lines : List String) : Nat :=
  (lines.map (fun l => l.toList.count c)).sum

/-- The scalar-set contents after steps 1 and 2 of `execute` starting
from the fresh state: built-ins, then declared enum names, then declared
scalar names. -/
def scalarNamesOf (ds : List Definition) : List String :=
  builtinScalarNames ++ (enumDefs ds).map EnumDef.name
    ++ (scalarDefs ds).map ScalarDef.name

/-- Names under which a run over `ds` ever inserts into the resolved
map: interfaces, objects and input objects (unions never insert). -/
def resolvedKeyNames (ds : List Definition) : List String :=
  (interfaceDefs ds).map InterfaceDef.name
    ++ (objectDefs ds).map ObjectDef.name
    ++ (inputObjectDefs ds).map InputObjectDef.name

/-- The error value raised by the worklist retry bound in `execute`
(the source's rendering of a dependency cycle). -/
def dependencyCycleError : FragmentGeneratorError :=
  .schema "recursion limit reached while resolving interface hierarchy"

/-- The error value raised by `inherited_fields` when an implemented
interface has no resolved entry yet. -/
def unresolvedInterfaceError : FragmentGeneratorError :=
  .schema "couldn't resolve implemented interface type"

/-- Two generator states are equivalent when their sinks agree and
their hash-backed containers are extensionally equal: the scalar sets
have the same members and the resolved maps give the same keyed
lookups.  Two faithful representations of the same `HashSet` and
`HashMap` contents — for instance with different iteration orders —
are equivalent in this sense. -/
def StateEquiv (s t : GenState) : Prop :=
  s.out = t.out ∧
    (∀ n : String, n ∈ s.scalarTypeNames ↔ n ∈ t.scalarTypeNames) ∧
    ∀ k : String, lookupResolved s.resolved k = lookupResolved t.resolved k

end Fraggen

namespace Fraggen

/-- Unwrapping `write_field` agrees with first computing the underlying
named type and then rendering. -/
theorem writeField_eq_underlying (cfg : Config) (scalars : List String)
    (fieldName : String) (ty : GType) (args : Option (List ArgumentDef)) :
    writeField cfg scalars fieldName ty args =
      writeFieldWithNamedType cfg scalars fieldName (underlyingName ty) args := by
  induction ty <;> simp_all [writeField, underlyingName]

/-- A field whose underlying type name is in the scalar set renders as a
single live selection line. -/
theorem writeField_live (cfg : Config) (scalars : List String)
    (fieldName : String) (ty : GType) (args : Option (List ArgumentDef))
    (h : underlyingName ty ∈ scalars) :
    writeField cfg scalars fieldName ty args =
      ["  " ++ fieldName ++ renderArglist args] := by
  rw [writeField_eq_underlying, writeFieldWithNamedType, if_pos h]

/-- A field whose underlying type name is not in the scalar set renders
as the three-line commented placeholder block. -/
theorem writeField_placeholder (cfg : Config) (scalars : List String)
    (fieldName : String) (ty : GType) (args : Option (List ArgumentDef))
    (h : underlyingName ty ∉ scalars) :
    writeField cfg scalars fieldName ty args =
      ["  # " ++ fieldName ++ renderArglist args ++ " \x7b",
       "  #   ..." ++ fragmentName cfg (underlyingName ty),
       "  # \x7d"] := by
  rw [writeField_eq_underlying, writeFieldWithNamedType, if_neg h]

/-- Lookup after insertion at the inserted key returns the new value. -/
theorem lookupResolved_insert_self (r : List (String × List String))
    (k : String) (v : List String) :
    lookupResolved (insertResolved r k v) k = some v := by
  unfold lookupResolved insertResolved
  rw [List.find?_cons_of_pos _ (by simp)]
  rfl

/-- Dropping the entries at one key does not change a search for a
different key. -/
theorem find?_filter_ne_key (r : List (String × List String))
    (k k' : String) (h : k' ≠ k) :
    List.find? (fun p => p.1 == k') (r.filter (fun p => p.1 != k)) =
      List.find? (fun p => p.1 == k') r := by
  induction r with
  | nil => rfl
  | cons p rest ih =>
      by_cases hp' : p.1 = k'
      · have h1 : (p.1 != k) = true := by simp [hp', h]
        have h2 : (p.1 == k') = true := by simp [hp']
        simp only [List.filter_cons, h1, if_true, List.find?_cons, h2]
      · have h2 : (p.1 == k') = false := by simp [hp']
        by_cases hp : p.1 = k
        · have h1 : (p.1 != k) = false := by simp [hp]
          simp only [List.filter_cons, h1, Bool.false_eq_true, if_false,
            List.find?_cons, h2]
          exact ih
        · have h1 : (p.1 != k) = true := by simp [hp]
          simp only [List.filter_cons, h1, if_true, List.find?_cons, h2]
          exact ih

/-- Lookup after insertion at any other key is unchanged. -/
theorem lookupResolved_insert_ne (r : List (String × List String))
    (k k' : String) (v : List String) (h : k' ≠ k) :
    lookupResolved (insertResolved r k v) k' = lookupResolved r k' := by
  unfold lookupResolved insertResolved
  rw [List.find?_cons_of_neg _ (by simp [Ne.symm h]),
    find?_filter_ne_key r k k' h]

/-- A successful lookup means the key occurs among the map's keys. -/
theorem mem_keys_of_lookupResolved (r : List (String × List String))
    (k : String) (v : List String) (h : lookupResolved r k = some v) :
    k ∈ r.map Prod.fst := by
  induction r with
  | nil => simp [lookupResolved] at h
  | cons p rest ih =>
      by_cases hp : p.1 = k
      · simp [hp]
      · simp only [lookupResolved, List.find?] at h
        have h2 : (p.1 == k) = false := by simpa using hp
        simp only [h2] at h
        simpa using Or.inr (ih h)

/-- A key absent from the map has no entry. -/
theorem lookupResolved_eq_none (r : List (String × List String))
    (k : String) (h : k ∉ r.map Prod.fst) :
    lookupResolved r k = none := by
  induction r with
  | nil => rfl
  | cons p rest ih =>
      simp only [List.map, List.mem_cons, not_or] at h
      simp only [lookupResolved, List.find?]
      have h2 : (p.1 == k) = false := by simpa using Ne.symm h.1
      simp only [h2]
      exact ih h.2

/-- Inserting a fresh key prepends it to the key list. -/
theorem insertResolved_keys_of_fresh (r : List (String × List String))
    (k : String) (v : List String) (h : k ∉ r.map Prod.fst) :
    (insertResolved r k v).map Prod.fst = k :: r.map Prod.fst := by
  unfold insertResolved
  have hfix : r.filter (fun p => p.1 != k) = r := by
    apply List.filter_eq_self.mpr
    intro p hp
    have hne : p.1 ≠ k := by
      intro hc
      exact h (hc ▸ List.mem_map_of_mem Prod.fst hp)
    simpa using hne
  simp [hfix]

/-- When every referenced interface is resolved, the inherited-field
accumulation succeeds. -/
theorem inheritedFieldsGo_ok (resolved : List (String × List String))
    (ns : List String) (h : ∀ n ∈ ns, (lookupResolved resolved n).isSome) :
    ∃ inh, inheritedFieldsGo resolved ns = .ok inh := by
  induction ns with
  | nil => exact ⟨[], rfl⟩
  | cons n rest ih =>
      have hn := h n (by simp)
      obtain ⟨fs, hfs⟩ := Option.isSome_iff_exists.mp hn
      obtain ⟨inh, hinh⟩ := ih (fun m hm => h m (by simp [hm]))
      exact ⟨fs ++ inh, by simp [inheritedFieldsGo, hfs, hinh]⟩

/-- When some referenced interface is unresolved, the inherited-field
accumulation fails with the hard lookup error, never an empty set. -/
theorem inheritedFieldsGo_error (resolved : List (String × List String))
    (ns : List String) (n : String) (hmem : n ∈ ns)
    (hnone : lookupResolved resolved n = none) :
    inheritedFieldsGo resolved ns = .error unresolvedInterfaceError := by
  induction ns with
  | nil => cases hmem
  | cons m rest ih =>
      rcases List.mem_cons.mp hmem with h | h
      · subst h
        simp [inheritedFieldsGo, hnone, unresolvedInterfaceError]
      · unfold inheritedFieldsGo
        cases hm : lookupResolved resolved m with
        | none => rfl
        | some fs => simp [ih h]

/-- Fields gathered from a successfully resolved interface are all in
the inherited set. -/
theorem inheritedFieldsGo_sub (resolved : List (String × List String))
    (ns : List String) (inh : List String)
    (hok : inheritedFieldsGo resolved ns = .ok inh)
    (n : String) (fs : List String) (hmem : n ∈ ns)
    (hlook : lookupResolved resolved n = some fs) :
    ∀ x ∈ fs, x ∈ inh := by
  induction ns generalizing inh with
  | nil => cases hmem
  | cons m rest ih =>
      unfold inheritedFieldsGo at hok
      cases hm : lookupResolved resolved m with
      | none => simp [hm] at hok
      | some gs =>
          simp only [hm] at hok
          cases hrest : inheritedFieldsGo resolved rest with
          | error e => simp [hrest] at hok
          | ok acc =>
              simp only [hrest] at hok
              cases hok
              rcases List.mem_cons.mp hmem with h | h
              · subst h
                rw [hm] at hlook
                cases hlook
                intro x hx
                exact List.mem_append_left _ hx
              · intro x hx
                exact List.mem_append_right _ (ih acc hrest h x hx)

/-- The field loop of `write_fields` renders exactly the non-inherited
fields, in declaration order, and records exactly their names. -/
theorem writeFieldsLoop_eq (cfg : Config) (scalars : List String)
    (inherited : List String) (fs : List FieldDef) :
    writeFieldsLoop cfg scalars inherited fs =
      (((fs.filter (fun f => f.name ∉ inherited)).map
          (fun f => writeField cfg scalars f.name f.ty f.args)).flatten,
        (fs.filter (fun f => f.name ∉ inherited)).map FieldDef.name) := by
  induction fs with
  | nil => rfl
  | cons f rest ih =>
      by_cases h : f.name ∈ inherited
      · simp [writeFieldsLoop, h, ih]
      · simp [writeFieldsLoop, h, ih]

/-- The field loop of `write_input_fields` renders every input field in
declaration order and records every name. -/
theorem writeInputFieldsLoop_eq (cfg : Config) (scalars : List String)
    (fs : List InputFieldDef) :
    writeInputFieldsLoop cfg scalars fs =
      ((fs.map (fun f => writeField cfg scalars f.name f.ty none)).flatten,
        fs.map InputFieldDef.name) := by
  induction fs with
  | nil => rfl
  | cons f rest ih => simp [writeInputFieldsLoop, ih]

/-- A block contributed by a list element is an infix of the flattened
map over the list. -/
theorem infix_flatten_of_mem {α : Type} (g : α → List String) (xs : List α)
    (x : α) (h : x ∈ xs) : (g x).IsInfix ((xs.map g).flatten) := by
  induction xs with
  | nil => cases h
  | cons y rest ih =>
      rcases List.mem_cons.mp h with h | h
      · subst h
        exact ⟨[], ((rest.map g).flatten), by simp⟩
      · obtain ⟨s, t, hst⟩ := ih h
        exact ⟨(g y) ++ s, t, by simp [← hst]⟩

/-- Membership in the scalar set assembled by steps 1 and 2: a name is
there exactly when it is a built-in scalar, a declared enum, or a
declared custom scalar. -/
theorem mem_scalarNamesOf (ds : List Definition) (n : String) :
    n ∈ scalarNamesOf ds ↔
      n ∈ builtinScalarNames ∨ (∃ e ∈ enumDefs ds, e.name = n) ∨
        ∃ s ∈ scalarDefs ds, s.name = n := by
  simp [scalarNamesOf, List.mem_append, List.mem_map, eq_comm]

/-- A string extending a prefix that differs from the target at some
position inside the prefix cannot equal the target. -/
theorem append_ne_of_prefix_get (p r t : String) (i : Nat)
    (hi : i < p.data.length) (hne : p.data[i]? ≠ t.data[i]?) :
    p ++ r ≠ t := by
  intro hc
  apply hne
  have hd : t.data = p.data ++ r.data := by
    rw [← hc, String.data_append]
  rw [hd, List.getElem?_append_left hi]

/-- A fragment header line is never the type-discriminator line. -/
theorem header_ne_typename (a b : String) :
    "fragment " ++ a ++ " on " ++ b ++ " \x7b" ≠ "  __typename" := by
  have h := append_ne_of_prefix_get "fragment "
    (a ++ (" on " ++ (b ++ " \x7b"))) "  __typename" 0 (by decide) (by decide)
  simpa [String.append_assoc] using h

/-- An interface-spread line is never the type-discriminator line. -/
theorem spread_ne_typename (s : String) :
    "  ..." ++ s ≠ "  __typename" :=
  append_ne_of_prefix_get "  ..." s "  __typename" 2 (by decide) (by decide)

/-- A union inline-fragment opener is never the type-discriminator
line. -/
theorem member_open_ne_typename (a : String) :
    "  ... on " ++ a ++ " \x7b" ≠ "  __typename" := by
  have h := append_ne_of_prefix_get "  ... on " (a ++ " \x7b")
    "  __typename" 2 (by decide) (by decide)
  simpa [String.append_assoc] using h

/-- A union member-spread line is never the type-discriminator line. -/
theorem nested_spread_ne_typename (s : String) :
    "    ..." ++ s ++ " \x7b" ≠ "  __typename" := by
  have h := append_ne_of_prefix_get "    ..." (s ++ " \x7b")
    "  __typename" 2 (by decide) (by decide)
  simpa [String.append_assoc] using h

/-- A placeholder opener line is never the type-discriminator line. -/
theorem placeholder_open_ne_typename (s : String) :
    "  # " ++ s ++ " \x7b" ≠ "  __typename" := by
  have h := append_ne_of_prefix_get "  # " (s ++ " \x7b")
    "  __typename" 2 (by decide) (by decide)
  simpa [String.append_assoc] using h

/-- A placeholder spread line is never the type-discriminator line. -/
theorem placeholder_spread_ne_typename (s : String) :
    "  #   ..." ++ s ≠ "  __typename" :=
  append_ne_of_prefix_get "  #   ..." s "  __typename" 2 (by decide) (by decide)

/-- A live selection line for a field not itself named `__typename` is
never the type-discriminator line. -/
theorem live_ne_typename (f : String) (args : Option (List ArgumentDef))
    (hf : f ≠ "__typename") :
    "  " ++ f ++ renderArglist args ≠ "  __typename" := by
  cases args with
  | none =>
      rw [renderArglist, String.append_empty]
      intro hc
      apply hf
      apply String.ext
      have hd := congrArg String.data hc
      rw [String.data_append] at hd
      have h2 : ("  __typename").data = ("  ").data ++ ("__typename").data := by
        decide
      rw [h2] at hd
      exact List.append_cancel_left hd
  | some argdefs =>
      intro hc
      have hmem : '(' ∈
          ("  " ++ f ++ renderArglist (some argdefs)).data := by
        rw [String.data_append]
        apply List.mem_append_right
        rw [renderArglist]
        rw [String.data_append, String.data_append]
        exact List.mem_append_left _ (List.mem_append_left _ (by decide))
      rw [hc] at hmem
      exact absurd hmem (by decide)

/-- Rendered field blocks never contain the type-discriminator line,
as long as the field itself is not named `__typename`. -/
theorem typename_notin_writeField (cfg : Config) (scalars : List String)
    (fieldName : String) (ty : GType) (args : Option (List ArgumentDef))
    (hf : fieldName ≠ "__typename") :
    "  __typename" ∉ writeField cfg scalars fieldName ty args := by
  rw [writeField_eq_underlying]
  simp only [writeFieldWithNamedType]
  by_cases h : underlyingName ty ∈ scalars
  · rw [if_pos h]
    intro hm
    exact live_ne_typename fieldName args hf (List.mem_singleton.mp hm).symm
  · rw [if_neg h]
    intro hm
    simp only [List.mem_cons, List.not_mem_nil, or_false] at hm
    rcases hm with h1 | h1 | h1
    · exact placeholder_open_ne_typename
        (fieldName ++ renderArglist args)
        (by simpa [String.append_assoc] using h1.symm)
    · exact placeholder_spread_ne_typename _ h1.symm
    · exact absurd h1 (by decide)

/-- The own-field block written by `write_fields` never contains the
type-discriminator line, as long as no declared field is itself named
`__typename`. -/
theorem typename_notin_fieldsLoop (cfg : Config) (scalars : List String)
    (inherited : List String) (fs : List FieldDef)
    (hf : ∀ f ∈ fs, f.name ≠ "__typename") :
    "  __typename" ∉ (writeFieldsLoop cfg scalars inherited fs).1 := by
  rw [writeFieldsLoop_eq]
  intro hm
  obtain ⟨l, hl, hmem⟩ := List.mem_flatten.mp hm
  obtain ⟨f, hfmem, rfl⟩ := List.mem_map.mp hl
  exact typename_notin_writeField cfg scalars f.name f.ty f.args
    (hf f (List.mem_of_mem_filter hfmem)) hmem

/-- The input-field block written by `write_input_fields` never
contains the type-discriminator line, as long as no declared input
field is itself named `__typename`. -/
theorem typename_notin_inputFieldsLoop (cfg : Config) (scalars : List String)
    (fs : List InputFieldDef)
    (hf : ∀ f ∈ fs, f.name ≠ "__typename") :
    "  __typename" ∉ (writeInputFieldsLoop cfg scalars fs).1 := by
  rw [writeInputFieldsLoop_eq]
  intro hm
  obtain ⟨l, hl, hmem⟩ := List.mem_flatten.mp hm
  obtain ⟨f, hfmem, rfl⟩ := List.mem_map.mp hl
  exact typename_notin_writeField cfg scalars f.name f.ty none
    (hf f hfmem) hmem

/-- Writing an interface fragment never touches the scalar set. -/
theorem writeInterfaceFragment_scalars (cfg : Config) (st : GenState)
    (d : InterfaceDef) :
    (writeInterfaceFragment cfg st d).1.scalarTypeNames = st.scalarTypeNames := by
  unfold writeInterfaceFragment
  rcases h : interfaceFragmentParts cfg st.scalarTypeNames st.resolved d with
    ⟨lines, res⟩
  cases res <;> rfl

/-- Writing a union fragment never touches the scalar set. -/
theorem writeUnionFragment_scalars (cfg : Config) (st : GenState)
    (d : UnionDef) :
    (writeUnionFragment cfg st d).1.scalarTypeNames = st.scalarTypeNames := by
  unfold writeUnionFragment
  rcases h : unionFragmentParts cfg d with ⟨lines, res⟩
  cases res <;> rfl

/-- Writing an object fragment never touches the scalar set. -/
theorem writeObjectFragment_scalars (cfg : Config) (st : GenState)
    (d : ObjectDef) :
    (writeObjectFragment cfg st d).1.scalarTypeNames = st.scalarTypeNames := by
  unfold writeObjectFragment
  rcases h : objectFragmentParts cfg st.scalarTypeNames st.resolved d with
    ⟨lines, res⟩
  cases res <;> rfl

/-- Writing an input-object fragment never touches the scalar set. -/
theorem writeInputObjectFragment_scalars (cfg : Config) (st : GenState)
    (d : InputObjectDef) :
    (writeInputObjectFragment cfg st d).1.scalarTypeNames = st.scalarTypeNames := by
  unfold writeInputObjectFragment
  rcases h : inputObjectFragmentParts cfg st.scalarTypeNames d with
    ⟨lines, res⟩
  cases res <;> rfl

/-- A writer loop preserves the scalar set whenever its writer does. -/
theorem runList_scalars {α : Type}
    (W : GenState → α → GenState × Option FragmentGeneratorError)
    (hW : ∀ st d, (W st d).1.scalarTypeNames = st.scalarTypeNames)
    (st : GenState) (l : List α) :
    (runList W st l).1.scalarTypeNames = st.scalarTypeNames := by
  induction l generalizing st with
  | nil => rfl
  | cons d rest ih =>
      unfold runList
      rcases h : W st d with ⟨st', res⟩
      have hs : st'.scalarTypeNames = st.scalarTypeNames := by
        have := hW st d
        rw [h] at this
        exact this
      cases res with
      | some e => exact hs
      | none => rw [ih st', hs]

/-- The interface worklist loop preserves the scalar set. -/
theorem resolveInterfaces_scalars (cfg : Config) (cap : Nat)
    (queue : List InterfaceDef) (recursions : Nat) (st : GenState) :
    (resolveInterfaces cfg cap queue recursions st).1.scalarTypeNames =
      st.scalarTypeNames := by
  induction queue, recursions, st using resolveInterfaces.induct cfg cap with
  | case1 x st => simp [resolveInterfaces]
  | case2 d rest recursions st himpl st' e hw =>
      have hws : st'.scalarTypeNames = st.scalarTypeNames := by
        have h0 := writeInterfaceFragment_scalars cfg st d
        rw [hw] at h0
        exact h0
      simp [resolveInterfaces, himpl, hw, hws]
  | case3 d rest recursions st himpl st' hw ih =>
      have hws : st'.scalarTypeNames = st.scalarTypeNames := by
        have h0 := writeInterfaceFragment_scalars cfg st d
        rw [hw] at h0
        exact h0
      simp [resolveInterfaces, himpl, hw, ih, hws]
  | case4 d rest recursions st names himpl hany hcap =>
      simp [resolveInterfaces, himpl, hany, hcap]
  | case5 d rest recursions st names himpl hany hcap ih =>
      simp [resolveInterfaces, himpl, hany, hcap, ih]
  | case6 d rest recursions st names himpl hany st' e hw =>
      have hws : st'.scalarTypeNames = st.scalarTypeNames := by
        have h0 := writeInterfaceFragment_scalars cfg st d
        rw [hw] at h0
        exact h0
      simp [resolveInterfaces, himpl, hany, hw, hws]
  | case7 d rest recursions st names himpl hany st' hw ih =>
      have hws : st'.scalarTypeNames = st.scalarTypeNames := by
        have h0 := writeInterfaceFragment_scalars cfg st d
        rw [hw] at h0
        exact h0
      simp [resolveInterfaces, himpl, hany, hw, ih, hws]

/-- Through a whole run the scalar set is exactly what steps 1 and 2
assembled: built-ins plus declared enum and scalar names; no later
phase modifies it. -/
theorem execute_scalars (cfg : Config) (cap : Nat) (ds : List Definition)
    (st0 : GenState) :
    (execute cfg cap ds st0).1.scalarTypeNames =
      st0.scalarTypeNames ++ (enumDefs ds).map EnumDef.name
        ++ (scalarDefs ds).map ScalarDef.name := by
  unfold execute
  rcases h1 : resolveInterfaces cfg cap (interfaceDefs ds) 0
      (withScalars ds st0) with ⟨stA, resA⟩
  have hA : stA.scalarTypeNames =
      st0.scalarTypeNames ++ (enumDefs ds).map EnumDef.name
        ++ (scalarDefs ds).map ScalarDef.name := by
    have hpre := resolveInterfaces_scalars cfg cap (interfaceDefs ds) 0
      (withScalars ds st0)
    rw [h1] at hpre
    exact hpre
  cases resA with
  | some e => exact hA
  | none =>
      dsimp only
      rcases h2 : runList (writeUnionFragment cfg) stA (unionDefs ds) with
        ⟨stB, resB⟩
      have hB : stB.scalarTypeNames = stA.scalarTypeNames := by
        have hpre := runList_scalars (writeUnionFragment cfg)
          (writeUnionFragment_scalars cfg) stA (unionDefs ds)
        rw [h2] at hpre
        exact hpre
      cases resB with
      | some e => dsimp only; rw [hB, hA]
      | none =>
          dsimp only
          rcases h3 : runList (writeObjectFragment cfg) stB (objectDefs ds) with
            ⟨stC, resC⟩
          have hC : stC.scalarTypeNames = stB.scalarTypeNames := by
            have hpre := runList_scalars (writeObjectFragment cfg)
              (writeObjectFragment_scalars cfg) stB (objectDefs ds)
            rw [h3] at hpre
            exact hpre
          cases resC with
          | some e => dsimp only; rw [hC, hB, hA]
          | none =>
              dsimp only
              have hpre := runList_scalars (writeInputObjectFragment cfg)
                (writeInputObjectFragment_scalars cfg) stC (inputObjectDefs ds)
              rw [hpre, hC, hB, hA]

/-- C1: the claim states that a union fragment holds exactly one member
spread directly inside each `... on Member` inline fragment, with no
extra nested brace block and with balanced braces.  Running the
generator on `union U = A` shows the member spread line carries a
spurious trailing opening brace, so the fragment nests the spread inside
an extra brace block and emits three opening but only two closing
braces.  The spec itself flags this artifact as erroneous, so the claim
reflects the intent and the code is the slip. -/
theorem c1_union_extra_brace_eval :
    (generate cfgMy 4 [.unionDef ⟨"U", some ["A"]⟩]).1.out =
      ["fragment MyUFields on U \x7b",
       "  ... on A \x7b",
       "    ...MyAFields \x7b",
       "  \x7d",
       "\x7d",
       ""] ∧
    (generate cfgMy 4 [.unionDef ⟨"U", some ["A"]⟩]).2 = none ∧
    charCount (Char.ofNat 123)
      ["fragment MyUFields on U \x7b", "  ... on A \x7b",
       "    ...MyAFields \x7b", "  \x7d", "\x7d", ""] = 3 ∧
    charCount (Char.ofNat 125)
      ["fragment MyUFields on U \x7b", "  ... on A \x7b",
       "    ...MyAFields \x7b", "  \x7d", "\x7d", ""] = 2 := by
  refine ⟨?_, ?_, by decide, by decide⟩ <;>
    simp [generate, execute, withScalars, resolveInterfaces, runList, interfaceDefs,
      unionDefs, objectDefs, inputObjectDefs, enumDefs, scalarDefs,
      writeUnionFragment, unionFragmentParts, fragmentName, cfgMy, initState]

/-- C3: the claim (matching the repository's own `test_arguments` and
`test_input` tests) states that a non-empty argument list renders as a
multi-line parenthesized block, one `name: $name` per line, with an
input-object-typed argument expanded into a nested block of that input
object's fields.  Running the generator on the tests' schemas shows the
argument list is rendered on a single line, comma-joined, appended
directly to the field name, and an input-object-typed argument is
rendered as plain `beer: $beer` with no expansion: the code contradicts
its own tests. -/
theorem c3_arglist_single_line_eval :
    (generate cfgMy 4 [.objectDef ⟨"Query", none,
        some [⟨"searchBeer", .list (.named "ID"),
          some [⟨"name", .nonNullNamed "String"⟩, ⟨"top", .named "Int"⟩]⟩]⟩]).1.out =
      ["fragment MyQueryFields on Query \x7b",
       "  __typename",
       "  searchBeer(name: $name, top: $top)",
       "\x7d",
       ""] ∧
    (generate cfgMy 4 [.enumDef ⟨"Style"⟩,
        .inputObjectDef ⟨"BeerInput",
          some [⟨"name", .named "String"⟩, ⟨"style", .named "Style"⟩,
            ⟨"abv", .named "Float"⟩]⟩,
        .objectDef ⟨"Mutation", none,
          some [⟨"postBeer", .named "ID",
            some [⟨"beer", .named "BeerInput"⟩, ⟨"submitter", .named "ID"⟩]⟩]⟩]).1.out =
      ["fragment MyMutationFields on Mutation \x7b",
       "  __typename",
       "  postBeer(beer: $beer, submitter: $submitter)",
       "\x7d",
       "",
       "fragment MyBeerInputFields on BeerInput \x7b",
       "  __typename",
       "  name",
       "  style",
       "  abv",
       "\x7d",
       ""] := by
  refine ⟨?_, ?_⟩ <;>
    · simp [generate, execute, withScalars, resolveInterfaces, runList, interfaceDefs,
        unionDefs, objectDefs, inputObjectDefs, enumDefs, scalarDefs,
        writeObjectFragment, objectFragmentParts, writeInputObjectFragment,
        inputObjectFragmentParts, writeFields, writeFieldsLoop, writeInputFields,
        writeInputFieldsLoop, writeField, writeFieldWithNamedType, renderArglist,
        inheritedFields, inheritedFieldsGo, lookupResolved, insertResolved,
        fragmentName, cfgMy, initState, builtinScalarNames]
      try rfl

/-- C4 counterexample: the claim states that fragments for InputObject
kinds never contain the type-discriminator leaf line.  Running the
generator with the marker option enabled on `input I \x7b x: Int \x7d`
emits an input-object fragment whose second line is `__typename`. -/
theorem c4_counterexample :
    (generate cfgMy 4 [.inputObjectDef ⟨"I", some [⟨"x", .named "Int"⟩]⟩]).1.out =
      ["fragment MyIFields on I \x7b",
       "  __typename",
       "  x",
       "\x7d",
       ""] ∧
    "  __typename" ∈
      (generate cfgMy 4 [.inputObjectDef ⟨"I", some [⟨"x", .named "Int"⟩]⟩]).1.out ∧
    (generate cfgMy 4 [.inputObjectDef ⟨"I", some [⟨"x", .named "Int"⟩]⟩]).2 = none := by
  refine ⟨?_, ?_, ?_⟩ <;>
    simp [generate, execute, withScalars, resolveInterfaces, runList, interfaceDefs,
      unionDefs, objectDefs, inputObjectDefs, enumDefs, scalarDefs,
      writeInputObjectFragment, inputObjectFragmentParts, writeInputFields,
      writeInputFieldsLoop, writeField, writeFieldWithNamedType, renderArglist,
      lookupResolved, insertResolved, fragmentName, cfgMy, initState,
      builtinScalarNames]

/-- C5 counterexample: the claim states that an argument whose
underlying type is an Object fails the run with `UnsupportedFieldType`.
Running the generator on `type Q \x7b f(a: A): A \x7d` with object type
`A` succeeds (no error of any kind) and renders the argument with the
default `a: $a` rendering inside the placeholder line for `f`. -/
theorem c5_counterexample :
    (generate cfgMy 4 [.objectDef ⟨"A", none, some [⟨"id", .named "ID", none⟩]⟩,
        .objectDef ⟨"Q", none,
          some [⟨"f", .named "A", some [⟨"a", .named "A"⟩]⟩]⟩]).2 = none ∧
    (generate cfgMy 4 [.objectDef ⟨"A", none, some [⟨"id", .named "ID", none⟩]⟩,
        .objectDef ⟨"Q", none,
          some [⟨"f", .named "A", some [⟨"a", .named "A"⟩]⟩]⟩]).1.out =
      ["fragment MyAFields on A \x7b",
       "  __typename",
       "  id",
       "\x7d",
       "",
       "fragment MyQFields on Q \x7b",
       "  __typename",
       "  # f(a: $a) \x7b",
       "  #   ...MyAFields",
       "  # \x7d",
       "\x7d",
       ""] := by
  refine ⟨?_, ?_⟩ <;>
    · simp [generate, execute, withScalars, resolveInterfaces, runList, interfaceDefs,
        unionDefs, objectDefs, inputObjectDefs, enumDefs, scalarDefs,
        writeObjectFragment, objectFragmentParts, writeFields, writeFieldsLoop,
        writeField, writeFieldWithNamedType, renderArglist, inheritedFields,
        inheritedFieldsGo, lookupResolved, insertResolved, fragmentName, cfgMy,
        initState, builtinScalarNames]
      try rfl

/-- C6 counterexample: the claim states that a field whose stripped type
names a type absent from the registry fails the run with
`UnresolvedType`.  Running the generator on `type Foo \x7b bar: Missing
\x7d`, where `Missing` is declared nowhere, succeeds and silently
renders the field as a commented placeholder spreading the nonexistent
`MyMissingFields`. -/
theorem c6_counterexample :
    (generate cfgMy 4 [.objectDef ⟨"Foo", none,
        some [⟨"bar", .named "Missing", none⟩]⟩]).2 = none ∧
    (generate cfgMy 4 [.objectDef ⟨"Foo", none,
        some [⟨"bar", .named "Missing", none⟩]⟩]).1.out =
      ["fragment MyFooFields on Foo \x7b",
       "  __typename",
       "  # bar \x7b",
       "  #   ...MyMissingFields",
       "  # \x7d",
       "\x7d",
       ""] := by
  constructor <;>
    simp [generate, execute, withScalars, resolveInterfaces, runList, interfaceDefs,
      unionDefs, objectDefs, inputObjectDefs, enumDefs, scalarDefs,
      writeObjectFragment, objectFragmentParts, writeFields, writeFieldsLoop,
      writeField, writeFieldWithNamedType, renderArglist, inheritedFields,
      inheritedFieldsGo, lookupResolved, insertResolved, fragmentName, cfgMy,
      initState, builtinScalarNames]

/-- C8: a field whose underlying named type is a leaf — a built-in
scalar, or an enum or custom scalar declared anywhere in the schema —
is rendered as a single live selection line, never a placeholder
comment; a field whose underlying named type is compound (declared as an
Object, Interface, Union or InputObject and not also carrying a leaf
name) is rendered as the three-line commented placeholder block, never a
live selection; and a whole run consults exactly the scalar set
assembled from the schema by steps 1 and 2. -/
theorem c8_leaf_vs_compound (ds : List Definition) (cfg : Config) (cap : Nat)
    (fieldName : String) (ty : GType) (args : Option (List ArgumentDef)) :
    ((underlyingName ty ∈ builtinScalarNames ∨
        (∃ e ∈ enumDefs ds, e.name = underlyingName ty) ∨
        (∃ s ∈ scalarDefs ds, s.name = underlyingName ty)) →
      writeField cfg (scalarNamesOf ds) fieldName ty args =
        ["  " ++ fieldName ++ renderArglist args]) ∧
    (((∃ o ∈ objectDefs ds, o.name = underlyingName ty) ∨
        (∃ i ∈ interfaceDefs ds, i.name = underlyingName ty) ∨
        (∃ u ∈ unionDefs ds, u.name = underlyingName ty) ∨
        (∃ io ∈ inputObjectDefs ds, io.name = underlyingName ty)) →
      underlyingName ty ∉ builtinScalarNames →
      (∀ e ∈ enumDefs ds, e.name ≠ underlyingName ty) →
      (∀ s ∈ scalarDefs ds, s.name ≠ underlyingName ty) →
      writeField cfg (scalarNamesOf ds) fieldName ty args =
        ["  # " ++ fieldName ++ renderArglist args ++ " \x7b",
         "  #   ..." ++ fragmentName cfg (underlyingName ty),
         "  # \x7d"]) ∧
    (execute cfg cap ds initState).1.scalarTypeNames = scalarNamesOf ds := by
  refine ⟨?_, ?_, ?_⟩
  · intro h
    exact writeField_live cfg _ fieldName ty args ((mem_scalarNamesOf ds _).mpr h)
  · intro _ h1 h2 h3
    apply writeField_placeholder
    intro hmem
    rcases (mem_scalarNamesOf ds _).mp hmem with h | ⟨e, he, hn⟩ | ⟨sd, hs, hn⟩
    · exact h1 h
    · exact h2 e he hn
    · exact h3 sd hs hn
  · rw [execute_scalars]
    rfl

/-- C8 witness: in a schema declaring enum `Style` and object `A`, a
field of type `[Style!]` renders live and a field of type `A!` renders
as a placeholder. -/
theorem c8_witness :
    (writeField cfgMy
        (scalarNamesOf [.enumDef ⟨"Style"⟩,
          .objectDef ⟨"A", none, some [⟨"id", .named "ID", none⟩]⟩])
        "style" (.list (.nonNullNamed "Style")) none = ["  style"]) ∧
    (writeField cfgMy
        (scalarNamesOf [.enumDef ⟨"Style"⟩,
          .objectDef ⟨"A", none, some [⟨"id", .named "ID", none⟩]⟩])
        "a" (.nonNullNamed "A") none =
      ["  # a \x7b", "  #   ...MyAFields", "  # \x7d"]) := by
  constructor
  · exact (c8_leaf_vs_compound
      [.enumDef ⟨"Style"⟩, .objectDef ⟨"A", none, some [⟨"id", .named "ID", none⟩]⟩]
      cfgMy 4 "style" (.list (.nonNullNamed "Style")) none).1
      (by decide)
  · exact (c8_leaf_vs_compound
      [.enumDef ⟨"Style"⟩, .objectDef ⟨"A", none, some [⟨"id", .named "ID", none⟩]⟩]
      cfgMy 4 "a" (.nonNullNamed "A") none).2.1
      (by decide) (by decide) (by decide) (by decide)

/-- C6 amended: the generator has no `UnresolvedType` failure for field
and argument types.  A field whose stripped type names anything outside
the scalar set — in particular a name absent from the registry
entirely — is classified compound and rendered as a commented
placeholder block referencing a fragment that may not exist, and the run
carries on: a one-object schema whose only field references an
undeclared name still succeeds. -/
theorem c6_amended :
    (∀ (cfg : Config) (scalars : List String) (fieldName : String)
        (ty : GType) (args : Option (List ArgumentDef)),
      underlyingName ty ∉ scalars →
      writeField cfg scalars fieldName ty args =
        ["  # " ++ fieldName ++ renderArglist args ++ " \x7b",
         "  #   ..." ++ fragmentName cfg (underlyingName ty),
         "  # \x7d"]) ∧
    (∀ (cfg : Config) (cap : Nat) (tn fn n : String),
      (generate cfg cap
        [.objectDef ⟨tn, none, some [⟨fn, .named n, none⟩]⟩]).2 = none) := by
  constructor
  · intro cfg scalars fieldName ty args h
    exact writeField_placeholder cfg scalars fieldName ty args h
  · intro cfg cap tn fn n
    simp [generate, execute, withScalars, resolveInterfaces, runList,
      interfaceDefs, unionDefs, objectDefs, inputObjectDefs, enumDefs,
      scalarDefs, writeObjectFragment, objectFragmentParts, writeFields,
      writeFieldsLoop, inheritedFields, inheritedFieldsGo, initState]

/-- C6 witness: the undeclared name `Missing` renders as a placeholder
and the run succeeds. -/
theorem c6_witness :
    (writeField cfgMy builtinScalarNames "bar" (.named "Missing") none =
      ["  # bar \x7b", "  #   ...MyMissingFields", "  # \x7d"]) ∧
    (generate cfgMy 4
      [.objectDef ⟨"Foo", none, some [⟨"bar", .named "Missing", none⟩]⟩]).2 =
      none := by
  constructor
  · exact c6_amended.1 cfgMy builtinScalarNames "bar" (.named "Missing") none
      (by decide)
  · exact c6_amended.2 cfgMy 4 "Foo" "bar" "Missing"

/-- C5 amended: argument types are never inspected, so no
`UnsupportedFieldType` failure exists.  The rendered argument list is a
function of the argument names alone; an input-object fragment writer
succeeds no matter what its field types are; and a compound-typed input
field is rendered inside the fragment as a commented placeholder block
rather than aborting the run. -/
theorem c5_amended :
    (∀ args1 args2 : List ArgumentDef,
      args1.map ArgumentDef.name = args2.map ArgumentDef.name →
      renderArglist (some args1) = renderArglist (some args2)) ∧
    (∀ (cfg : Config) (st : GenState) (d : InputObjectDef)
        (fs : List InputFieldDef), d.fields = some fs →
      (writeInputObjectFragment cfg st d).2 = none) ∧
    (∀ (cfg : Config) (scalars : List String) (fs : List InputFieldDef)
        (f : InputFieldDef), f ∈ fs → underlyingName f.ty ∉ scalars →
      (writeField cfg scalars f.name f.ty none).IsInfix
          (writeInputFieldsLoop cfg scalars fs).1 ∧
        writeField cfg scalars f.name f.ty none =
          ["  # " ++ f.name ++ renderArglist none ++ " \x7b",
           "  #   ..." ++ fragmentName cfg (underlyingName f.ty),
           "  # \x7d"]) := by
  refine ⟨?_, ?_, ?_⟩
  · intro args1 args2 h
    simp only [renderArglist]
    have h1 : args1.map (fun a => a.name ++ ": $" ++ a.name) =
        (args1.map ArgumentDef.name).map (fun nm => nm ++ ": $" ++ nm) := by
      rw [List.map_map]
      rfl
    have h2 : args2.map (fun a => a.name ++ ": $" ++ a.name) =
        (args2.map ArgumentDef.name).map (fun nm => nm ++ ": $" ++ nm) := by
      rw [List.map_map]
      rfl
    rw [h1, h2, h]
  · intro cfg st d fs hfs
    unfold writeInputObjectFragment inputObjectFragmentParts writeInputFields
    rw [hfs]
  · intro cfg scalars fs f hmem hns
    constructor
    · rw [writeInputFieldsLoop_eq]
      exact infix_flatten_of_mem (fun f => writeField cfg scalars f.name f.ty none)
        fs f hmem
    · exact writeField_placeholder cfg scalars f.name f.ty none hns

/-- C5 witness: an input object with an input-object-typed field still
renders (as placeholder) and its writer succeeds; the argument renderer
only sees names. -/
theorem c5_witness :
    (renderArglist (some [⟨"a", .named "A"⟩]) =
      renderArglist (some [⟨"a", .named "Int"⟩])) ∧
    ((writeInputObjectFragment cfgMy initState
        ⟨"Outer", some [⟨"inner", .named "Inner"⟩]⟩).2 = none) ∧
    (writeField cfgMy builtinScalarNames "inner" (.named "Inner") none).IsInfix
      (writeInputFieldsLoop cfgMy builtinScalarNames
        [⟨"inner", .named "Inner"⟩]).1 := by
  refine ⟨?_, ?_, ?_⟩
  · exact c5_amended.1 [⟨"a", .named "A"⟩] [⟨"a", .named "Int"⟩] (by decide)
  · exact c5_amended.2.1 cfgMy initState ⟨"Outer", some [⟨"inner", .named "Inner"⟩]⟩
      [⟨"inner", .named "Inner"⟩] rfl
  · exact (c5_amended.2.2 cfgMy builtinScalarNames [⟨"inner", .named "Inner"⟩]
      ⟨"inner", .named "Inner"⟩ (by decide) (by decide)).1

/-- On a present fields block with a successfully accumulated inherited
set, `write_fields` renders exactly the non-inherited fields in
declaration order and returns their names. -/
theorem writeFields_ok_eq (cfg : Config) (scalars : List String)
    (resolved : List (String × List String)) (fs : List FieldDef)
    (impls : List String) (inh : List String)
    (hinh : inheritedFieldsGo resolved impls = .ok inh) :
    writeFields cfg scalars resolved (some fs) (some impls) =
      .ok ((((fs.filter (fun f => f.name ∉ inh))).map
            (fun f => writeField cfg scalars f.name f.ty f.args)).flatten,
        (fs.filter (fun f => f.name ∉ inh)).map FieldDef.name) := by
  simp [writeFields, inheritedFields, hinh, writeFieldsLoop_eq]

/-- The spread-line constructor is injective in the interface name. -/
theorem spreadLine_injective (cfg : Config) :
    Function.Injective (fun n => "  ..." ++ fragmentName cfg n) := by
  intro a b h
  simp only [fragmentName] at h
  have hd := congrArg String.data h
  simp only [String.data_append, List.append_assoc] at hd
  have h1 := List.append_cancel_left hd
  have h2 := List.append_cancel_left h1
  have h3 := List.append_cancel_right h2
  exact String.ext h3

/-- With distinct declared interfaces, the spread line of an implemented
interface occurs exactly once among the emitted spread lines. -/
theorem spread_count_one (cfg : Config) (impls : List String) (I : String)
    (hnd : impls.Nodup) (hI : I ∈ impls) :
    (impls.map (fun n => "  ..." ++ fragmentName cfg n)).count
      ("  ..." ++ fragmentName cfg I) = 1 := by
  rw [List.count_map_of_injective impls _ (spreadLine_injective cfg) I]
  exact List.count_eq_one_of_mem hnd hI

/-- C4 amended: when the marker option is enabled the
type-discriminator leaf line is written in fragments of Object kind AND
of InputObject kind (in both cases immediately after the header);
fragments of Interface and Union kind never contain it; and when the
option is disabled no fragment contains it (given no schema field is
itself named `__typename`, which the language reserves). -/
theorem c4_amended (cfg : Config) (scalars : List String)
    (resolved : List (String × List String)) :
    (∀ d : ObjectDef, cfg.add_typename = true →
      (objectFragmentParts cfg scalars resolved d).1[1]? =
        some "  __typename") ∧
    (∀ d : InputObjectDef, cfg.add_typename = true →
      (inputObjectFragmentParts cfg scalars d).1[1]? =
        some "  __typename") ∧
    (∀ d : InterfaceDef,
      (∀ fs, d.fields = some fs → ∀ f ∈ fs, f.name ≠ "__typename") →
      "  __typename" ∉ (interfaceFragmentParts cfg scalars resolved d).1) ∧
    (∀ d : UnionDef, "  __typename" ∉ (unionFragmentParts cfg d).1) ∧
    (cfg.add_typename = false →
      (∀ d : ObjectDef,
        (∀ fs, d.fields = some fs → ∀ f ∈ fs, f.name ≠ "__typename") →
        "  __typename" ∉ (objectFragmentParts cfg scalars resolved d).1) ∧
      (∀ d : InputObjectDef,
        (∀ fs, d.fields = some fs → ∀ f ∈ fs, f.name ≠ "__typename") →
        "  __typename" ∉ (inputObjectFragmentParts cfg scalars d).1)) := by
  refine ⟨?_, ?_, ?_, ?_, ?_⟩
  · intro d h
    rcases hw : writeFields cfg scalars resolved d.fields d.implements with
      e | ⟨fl, own⟩ <;> simp [objectFragmentParts, hw, h]
  · intro d h
    rcases hw : writeInputFields cfg scalars d.fields with e | ⟨fl, own⟩ <;>
      simp [inputObjectFragmentParts, hw, h]
  · intro d hf hm
    rcases himp : d.implements with _ | ns
    · rcases hfld : d.fields with _ | fs
      · simp [interfaceFragmentParts, writeFields, inheritedFields, himp,
          hfld] at hm
        exact header_ne_typename _ _ hm.symm
      · simp [interfaceFragmentParts, writeFields, inheritedFields, himp,
          hfld] at hm
        rcases hm with h | h
        · exact header_ne_typename _ _ h.symm
        · exact typename_notin_fieldsLoop cfg scalars [] fs (hf fs hfld) h
    · rcases hfld : d.fields with _ | fs
      · simp [interfaceFragmentParts, writeFields, inheritedFields, himp,
          hfld] at hm
        rcases hm with h | h
        · exact header_ne_typename _ _ h.symm
        · obtain ⟨n, hn, he⟩ := h
          exact spread_ne_typename _ he
      · rcases hin : inheritedFieldsGo resolved ns with e | inh
        · simp [interfaceFragmentParts, writeFields, inheritedFields, himp,
            hfld, hin] at hm
          rcases hm with h | h
          · exact header_ne_typename _ _ h.symm
          · obtain ⟨n, hn, he⟩ := h
            exact spread_ne_typename _ he
        · simp [interfaceFragmentParts, writeFields, inheritedFields, himp,
            hfld, hin] at hm
          rcases hm with h | h | h
          · exact header_ne_typename _ _ h.symm
          · obtain ⟨n, hn, he⟩ := h
            exact spread_ne_typename _ he
          · exact typename_notin_fieldsLoop cfg scalars inh fs (hf fs hfld) h
  · intro d hm
    rcases hmem : d.members with _ | ms
    · simp [unionFragmentParts, hmem] at hm
      exact header_ne_typename _ _ hm.symm
    · simp [unionFragmentParts, hmem] at hm
      rcases hm with h | h
      · exact header_ne_typename _ _ h.symm
      · obtain ⟨m, hmm, he⟩ := h
        rcases he with he | he
        · exact member_open_ne_typename _ he.symm
        · exact nested_spread_ne_typename _ he.symm
  · intro hflag
    constructor
    · intro d hf hm
      rcases himp : d.implements with _ | ns
      · rcases hfld : d.fields with _ | fs
        · simp [objectFragmentParts, writeFields, inheritedFields, himp,
            hfld, hflag] at hm
          exact header_ne_typename _ _ hm.symm
        · simp [objectFragmentParts, writeFields, inheritedFields, himp,
            hfld, hflag] at hm
          rcases hm with h | h
          · exact header_ne_typename _ _ h.symm
          · exact typename_notin_fieldsLoop cfg scalars [] fs (hf fs hfld) h
      · rcases hfld : d.fields with _ | fs
        · simp [objectFragmentParts, writeFields, inheritedFields, himp,
            hfld, hflag] at hm
          rcases hm with h | h
          · exact header_ne_typename _ _ h.symm
          · obtain ⟨n, hn, he⟩ := h
            exact spread_ne_typename _ he
        · rcases hin : inheritedFieldsGo resolved ns with e | inh
          · simp [objectFragmentParts, writeFields, inheritedFields, himp,
              hfld, hin, hflag] at hm
            rcases hm with h | h
            · exact header_ne_typename _ _ h.symm
            · obtain ⟨n, hn, he⟩ := h
              exact spread_ne_typename _ he
          · simp [objectFragmentParts, writeFields, inheritedFields, himp,
              hfld, hin, hflag] at hm
            rcases hm with h | h | h
            · exact header_ne_typename _ _ h.symm
            · obtain ⟨n, hn, he⟩ := h
              exact spread_ne_typename _ he
            · exact typename_notin_fieldsLoop cfg scalars inh fs (hf fs hfld) h
    · intro d hf hm
      rcases hfld : d.fields with _ | fs
      · simp [inputObjectFragmentParts, writeInputFields, hfld, hflag] at hm
        exact header_ne_typename _ _ hm.symm
      · simp [inputObjectFragmentParts, writeInputFields, hfld, hflag] at hm
        rcases hm with h | h
        · exact header_ne_typename _ _ h.symm
        · exact typename_notin_inputFieldsLoop cfg scalars fs (hf fs hfld) h

/-- C4 amended witness: with the marker enabled, the object and
input-object fragments carry the discriminator as their second line;
interface and union fragments do not contain it; with the marker
disabled the object fragment does not contain it either. -/
theorem c4_amended_witness :
    ((objectFragmentParts cfgMy builtinScalarNames []
        ⟨"Foo", none, some [⟨"id", .named "ID", none⟩]⟩).1[1]? =
      some "  __typename") ∧
    ((inputObjectFragmentParts cfgMy builtinScalarNames
        ⟨"I", some [⟨"x", .named "Int"⟩]⟩).1[1]? = some "  __typename") ∧
    ("  __typename" ∉ (interfaceFragmentParts cfgMy builtinScalarNames []
        ⟨"Rect", none, some [⟨"width", .named "Float", none⟩]⟩).1) ∧
    ("  __typename" ∉ (unionFragmentParts cfgMy ⟨"U", some ["A"]⟩).1) ∧
    ("  __typename" ∉ (objectFragmentParts
        { pre := "My", suf := "Fields", add_typename := false }
        builtinScalarNames []
        ⟨"Foo", none, some [⟨"id", .named "ID", none⟩]⟩).1) := by
  refine ⟨?_, ?_, ?_, ?_, ?_⟩
  · exact (c4_amended cfgMy builtinScalarNames []).1
      ⟨"Foo", none, some [⟨"id", .named "ID", none⟩]⟩ rfl
  · exact (c4_amended cfgMy builtinScalarNames []).2.1
      ⟨"I", some [⟨"x", .named "Int"⟩]⟩ rfl
  · exact (c4_amended cfgMy builtinScalarNames []).2.2.1
      ⟨"Rect", none, some [⟨"width", .named "Float", none⟩]⟩
      (by intro fs hfs f hf; cases hfs; simp at hf; subst hf; decide)
  · exact (c4_amended cfgMy builtinScalarNames []).2.2.2.1 ⟨"U", some ["A"]⟩
  · exact ((c4_amended { pre := "My", suf := "Fields", add_typename := false }
      builtinScalarNames []).2.2.2.2 rfl).1
      ⟨"Foo", none, some [⟨"id", .named "ID", none⟩]⟩
      (by intro fs hfs f hf; cases hfs; simp at hf; subst hf; decide)

/-- A name in the inherited set never survives the field filter. -/
theorem notmem_filtered (fs : List FieldDef) (inh : List String)
    (x : String) (hx : x ∈ inh) :
    x ∉ (fs.filter (fun f => f.name ∉ inh)).map FieldDef.name := by
  intro hmem
  obtain ⟨f, hf, hfx⟩ := List.mem_map.mp hmem
  have hp := (List.mem_filter.mp hf).2
  simp only [decide_not, Bool.not_eq_true', decide_eq_false_iff_not] at hp
  exact hp (hfx ▸ hx)

/-- C7: for an Object or Interface type implementing interface `I`,
with `I` (and every other implemented interface) already resolved, the
fragment body consists of the header, the optional marker, exactly the
declared spread lines (one per implemented interface, and exactly one
referencing `I` when the declared interfaces are distinct), then the
non-inherited own fields in declaration order, and the closer; no field
name resolved for `I` is among the rendered own fields. -/
theorem c7_interface_inheritance (cfg : Config) (scalars : List String)
    (resolved : List (String × List String)) (I : String) (FI : List String)
    (impls : List String) (hI : I ∈ impls)
    (hFI : lookupResolved resolved I = some FI)
    (hall : ∀ n ∈ impls, (lookupResolved resolved n).isSome) :
    (∀ (d : ObjectDef) (fs : List FieldDef), d.implements = some impls →
      d.fields = some fs →
      ∃ inh, inheritedFieldsGo resolved impls = .ok inh ∧
        (∀ x ∈ FI, x ∈ inh) ∧
        objectFragmentParts cfg scalars resolved d =
          (["fragment " ++ fragmentName cfg d.name ++ " on " ++ d.name ++ " \x7b"]
            ++ (if cfg.add_typename then ["  __typename"] else [])
            ++ impls.map (fun n => "  ..." ++ fragmentName cfg n)
            ++ ((fs.filter (fun f => f.name ∉ inh)).map
                (fun f => writeField cfg scalars f.name f.ty f.args)).flatten
            ++ ["\x7d", ""],
           .ok ((fs.filter (fun f => f.name ∉ inh)).map FieldDef.name)) ∧
        (∀ x ∈ FI, x ∉ (fs.filter (fun f => f.name ∉ inh)).map FieldDef.name)) ∧
    (∀ (d : InterfaceDef) (fs : List FieldDef), d.implements = some impls →
      d.fields = some fs →
      ∃ inh, inheritedFieldsGo resolved impls = .ok inh ∧
        (∀ x ∈ FI, x ∈ inh) ∧
        interfaceFragmentParts cfg scalars resolved d =
          (["fragment " ++ fragmentName cfg d.name ++ " on " ++ d.name ++ " \x7b"]
            ++ impls.map (fun n => "  ..." ++ fragmentName cfg n)
            ++ ((fs.filter (fun f => f.name ∉ inh)).map
                (fun f => writeField cfg scalars f.name f.ty f.args)).flatten
            ++ ["\x7d", ""],
           .ok ((fs.filter (fun f => f.name ∉ inh)).map FieldDef.name)) ∧
        (∀ x ∈ FI, x ∉ (fs.filter (fun f => f.name ∉ inh)).map FieldDef.name)) ∧
    (impls.Nodup →
      (impls.map (fun n => "  ..." ++ fragmentName cfg n)).count
        ("  ..." ++ fragmentName cfg I) = 1) := by
  obtain ⟨inh, hinh⟩ := inheritedFieldsGo_ok resolved impls hall
  have hsub : ∀ x ∈ FI, x ∈ inh :=
    inheritedFieldsGo_sub resolved impls inh hinh I FI hI hFI
  refine ⟨?_, ?_, ?_⟩
  · intro d fs himpl hfld
    refine ⟨inh, hinh, hsub, ?_, fun x hx => notmem_filtered fs inh x (hsub x hx)⟩
    simp [objectFragmentParts, himpl, hfld,
      writeFields_ok_eq cfg scalars resolved fs impls inh hinh]
  · intro d fs himpl hfld
    refine ⟨inh, hinh, hsub, ?_, fun x hx => notmem_filtered fs inh x (hsub x hx)⟩
    simp [interfaceFragmentParts, himpl, hfld,
      writeFields_ok_eq cfg scalars resolved fs impls inh hinh]
  · intro hnd
    exact spread_count_one cfg impls I hnd hI

/-- C7 witness: the spec's `Rect`/`Box` example, with `Rect` already
resolved to `width`/`height`: the Box fragment records only `id` as its
own field, and the `Rect` spread appears exactly once. -/
theorem c7_witness :
    (objectFragmentParts cfgMy builtinScalarNames
        [("Rect", ["width", "height"])]
        ⟨"Box", some ["Rect"],
          some [⟨"id", .named "ID", none⟩, ⟨"width", .named "Float", none⟩,
            ⟨"height", .named "Float", none⟩]⟩).2 = .ok ["id"] ∧
    ((["Rect"].map (fun n => "  ..." ++ fragmentName cfgMy n)).count
      ("  ..." ++ fragmentName cfgMy "Rect") = 1) := by
  have h := c7_interface_inheritance cfgMy builtinScalarNames
    [("Rect", ["width", "height"])] "Rect" ["width", "height"] ["Rect"]
    (by decide) (by decide) (by decide)
  constructor
  · obtain ⟨inh, hinh, hsub, hparts, hnm⟩ := h.1
      ⟨"Box", some ["Rect"],
        some [⟨"id", .named "ID", none⟩, ⟨"width", .named "Float", none⟩,
          ⟨"height", .named "Float", none⟩]⟩
      [⟨"id", .named "ID", none⟩, ⟨"width", .named "Float", none⟩,
        ⟨"height", .named "Float", none⟩] rfl rfl
    have heval : inheritedFieldsGo [("Rect", ["width", "height"])] ["Rect"] =
        Except.ok ["width", "height"] := rfl
    rw [heval] at hinh
    cases hinh
    rw [hparts]
    rfl
  · exact h.2.2 (by decide)

/-- An interface whose fields block is present and whose references are
all resolved (or absent) is written without error. -/
theorem writeInterfaceFragment_success (cfg : Config) (st : GenState)
    (d : InterfaceDef) (fs : List FieldDef) (hfld : d.fields = some fs)
    (himp : d.implements = none ∨ ∃ ns, d.implements = some ns ∧
      ∀ n ∈ ns, (lookupResolved st.resolved n).isSome) :
    (writeInterfaceFragment cfg st d).2 = none := by
  rcases himp with himp | ⟨ns, himp, hall⟩
  · simp [writeInterfaceFragment, interfaceFragmentParts, writeFields,
      inheritedFields, himp, hfld]
  · obtain ⟨inh, hinh⟩ := inheritedFieldsGo_ok st.resolved ns hall
    simp [writeInterfaceFragment, interfaceFragmentParts, writeFields,
      inheritedFields, himp, hfld, hinh]

/-- A successful interface write inserts exactly the type's own fields
under the type's name. -/
theorem writeInterfaceFragment_resolved_of_ok (cfg : Config) (st : GenState)
    (d : InterfaceDef) (st' : GenState)
    (hw : writeInterfaceFragment cfg st d = (st', none)) :
    ∃ own, st'.resolved = insertResolved st.resolved d.name own := by
  unfold writeInterfaceFragment at hw
  rcases h : interfaceFragmentParts cfg st.scalarTypeNames st.resolved d with
    ⟨lines, res⟩
  rw [h] at hw
  cases res with
  | error e => simp at hw
  | ok own =>
      simp only [Prod.mk.injEq] at hw
      exact ⟨own, by rw [← hw.1]⟩

/-- Worklist lemma for C2: if a nonempty set `S` of interface names is
cyclic — every queued interface named in `S` implements some member of
`S`, every member of `S` names a queued interface, and none is resolved
yet — then (with every queued interface carrying a fields block, as a
validated registry guarantees) the loop terminates in the
dependency-cycle error and no member of `S` is ever resolved. -/
theorem resolveInterfaces_cycle (cfg : Config) (cap : Nat) (S : List String)
    (hS : S ≠ []) (queue : List InterfaceDef) (recursions : Nat)
    (st : GenState)
    (hq : ∀ s ∈ S, ∃ d ∈ queue, d.name = s)
    (himpl : ∀ d ∈ queue, d.name ∈ S →
      ∃ ns, d.implements = some ns ∧ ∃ t ∈ S, t ∈ ns)
    (hfields : ∀ d ∈ queue, d.fields.isSome)
    (hres : ∀ s ∈ S, lookupResolved st.resolved s = none) :
    (resolveInterfaces cfg cap queue recursions st).2 =
      some dependencyCycleError ∧
    ∀ s ∈ S, lookupResolved
      (resolveInterfaces cfg cap queue recursions st).1.resolved s = none := by
  revert hq himpl hfields hres
  induction queue, recursions, st using resolveInterfaces.induct cfg cap with
  | case1 x st =>
      intro hq himpl hfields hres
      obtain ⟨s, hs⟩ := List.exists_mem_of_ne_nil S hS
      obtain ⟨d, hd, _⟩ := hq s hs
      cases hd
  | case2 d rest recursions st himp st' e hw =>
      intro hq himpl hfields hres
      obtain ⟨fs, hfs⟩ := Option.isSome_iff_exists.mp
        (hfields d (List.mem_cons_self d rest))
      have hok := writeInterfaceFragment_success cfg st d fs hfs (Or.inl himp)
      rw [hw] at hok
      simp at hok
  | case3 d rest recursions st himp st' hw ih =>
      intro hq himpl hfields hres
      have hdS : d.name ∉ S := by
        intro hdS
        obtain ⟨ns, hns, _⟩ := himpl d (List.mem_cons_self d rest) hdS
        rw [himp] at hns
        cases hns
      obtain ⟨own, hown⟩ :=
        writeInterfaceFragment_resolved_of_ok cfg st d st' hw
      have hres' : ∀ s ∈ S, lookupResolved st'.resolved s = none := by
        intro s hs
        rw [hown, lookupResolved_insert_ne st.resolved d.name s own
          (fun hc => hdS (hc ▸ hs))]
        exact hres s hs
      have hq' : ∀ s ∈ S, ∃ d' ∈ rest, d'.name = s := by
        intro s hs
        obtain ⟨d', hd', hname⟩ := hq s hs
        rcases List.mem_cons.mp hd' with h | h
        · exact absurd (hname ▸ hs) (h ▸ hdS)
        · exact ⟨d', h, hname⟩
      have hrest := ih hq'
        (fun d' hd' => himpl d' (List.mem_cons_of_mem d hd'))
        (fun d' hd' => hfields d' (List.mem_cons_of_mem d hd')) hres'
      rw [resolveInterfaces]
      simp only [himp, hw]
      exact hrest
  | case4 d rest recursions st ns himp hany hcap =>
      intro hq himpl hfields hres
      rw [resolveInterfaces]
      simp only [himp, hany, if_pos hcap]
      exact ⟨rfl, hres⟩
  | case5 d rest recursions st ns himp hany hcap ih =>
      intro hq himpl hfields hres
      have hq' : ∀ s ∈ S, ∃ d' ∈ rest ++ [d], d'.name = s := by
        intro s hs
        obtain ⟨d', hd', hname⟩ := hq s hs
        rcases List.mem_cons.mp hd' with h | h
        · exact ⟨d', by simp [h], hname⟩
        · exact ⟨d', List.mem_append_left _ h, hname⟩
      have himpl' : ∀ d' ∈ rest ++ [d], d'.name ∈ S →
          ∃ ns', d'.implements = some ns' ∧ ∃ t ∈ S, t ∈ ns' := by
        intro d' hd'
        rcases List.mem_append.mp hd' with h | h
        · exact himpl d' (List.mem_cons_of_mem d h)
        · have : d' = d := List.mem_singleton.mp h
          exact this ▸ himpl d (List.mem_cons_self d rest)
      have hfields' : ∀ d' ∈ rest ++ [d], d'.fields.isSome := by
        intro d' hd'
        rcases List.mem_append.mp hd' with h | h
        · exact hfields d' (List.mem_cons_of_mem d h)
        · have : d' = d := List.mem_singleton.mp h
          exact this ▸ hfields d (List.mem_cons_self d rest)
      have hrest := ih hq' himpl' hfields' hres
      rw [resolveInterfaces]
      simp only [himp, hany, if_neg hcap]
      exact hrest
  | case6 d rest recursions st ns himp hany st' e hw =>
      intro hq himpl hfields hres
      obtain ⟨fs, hfs⟩ := Option.isSome_iff_exists.mp
        (hfields d (List.mem_cons_self d rest))
      have hall : ∀ n ∈ ns, (lookupResolved st.resolved n).isSome := by
        intro n hn
        by_contra hcon
        apply hany
        rw [List.any_eq_true]
        have hnone : lookupResolved st.resolved n = none :=
          Option.not_isSome_iff_eq_none.mp hcon
        exact ⟨n, hn, by simp [hnone]⟩
      have hok := writeInterfaceFragment_success cfg st d fs hfs
        (Or.inr ⟨ns, himp, hall⟩)
      rw [hw] at hok
      simp at hok
  | case7 d rest recursions st ns himp hany st' hw ih =>
      intro hq himpl hfields hres
      have hall : ∀ n ∈ ns, (lookupResolved st.resolved n).isSome := by
        intro n hn
        by_contra hcon
        apply hany
        rw [List.any_eq_true]
        have hnone : lookupResolved st.resolved n = none :=
          Option.not_isSome_iff_eq_none.mp hcon
        exact ⟨n, hn, by simp [hnone]⟩
      have hdS : d.name ∉ S := by
        intro hdS
        obtain ⟨ns', hns', t, htS, htns⟩ :=
          himpl d (List.mem_cons_self d rest) hdS
        rw [himp] at hns'
        cases hns'
        have := hall t htns
        rw [hres t htS] at this
        simp at this
      obtain ⟨own, hown⟩ :=
        writeInterfaceFragment_resolved_of_ok cfg st d st' hw
      have hres' : ∀ s ∈ S, lookupResolved st'.resolved s = none := by
        intro s hs
        rw [hown, lookupResolved_insert_ne st.resolved d.name s own
          (fun hc => hdS (hc ▸ hs))]
        exact hres s hs
      have hq' : ∀ s ∈ S, ∃ d' ∈ rest, d'.name = s := by
        intro s hs
        obtain ⟨d', hd', hname⟩ := hq s hs
        rcases List.mem_cons.mp hd' with h | h
        · exact absurd (hname ▸ hs) (h ▸ hdS)
        · exact ⟨d', h, hname⟩
      have hrest := ih hq'
        (fun d' hd' => himpl d' (List.mem_cons_of_mem d hd'))
        (fun d' hd' => hfields d' (List.mem_cons_of_mem d hd')) hres'
      rw [resolveInterfaces]
      simp only [himp, hany, hw]
      exact hrest

/-- C2: a registry whose interface-implements graph contains a cycle
(a nonempty name set `S`, each member naming a registered interface that
implements another member of `S`, with every interface carrying a
fields block as a validated registry guarantees) makes the run
terminate in the dependency-cycle schema error — raised once the
cumulative retry counter exceeds the worklist capacity `cap`, a bound at
least the number of interfaces still outstanding — and no member of the
cycle is ever resolved or emitted, for every capacity value. -/
theorem c2_dependency_cycle (cfg : Config) (cap : Nat)
    (ds : List Definition) (S : List String) (hS : S ≠ [])
    (hq : ∀ s ∈ S, ∃ d ∈ interfaceDefs ds, d.name = s)
    (himpl : ∀ d ∈ interfaceDefs ds, d.name ∈ S →
      ∃ ns, d.implements = some ns ∧ ∃ t ∈ S, t ∈ ns)
    (hfields : ∀ d ∈ interfaceDefs ds, d.fields.isSome) :
    (generate cfg cap ds).2 = some dependencyCycleError ∧
    ∀ s ∈ S, lookupResolved (generate cfg cap ds).1.resolved s = none := by
  have hcycle := resolveInterfaces_cycle cfg cap S hS (interfaceDefs ds) 0
    (withScalars ds initState) hq himpl hfields (fun s _ => rfl)
  rcases hpair : resolveInterfaces cfg cap (interfaceDefs ds) 0
    (withScalars ds initState) with ⟨stA, resA⟩
  rw [hpair] at hcycle
  obtain ⟨herr, hlook⟩ := hcycle
  simp only at herr
  subst herr
  constructor
  · simp [generate, execute, hpair]
  · intro s hs
    have := hlook s hs
    simpa [generate, execute, hpair] using this

/-- C2 witness: the two-interface cycle `interface A implements B` /
`interface B implements A` fails with the dependency-cycle error and
resolves neither side. -/
theorem c2_witness :
    (generate cfgMy 4
      [.interfaceDef ⟨"A", some ["B"], some [⟨"x", .named "Int", none⟩]⟩,
       .interfaceDef ⟨"B", some ["A"], some [⟨"y", .named "Int", none⟩]⟩]).2 =
      some dependencyCycleError ∧
    ∀ s ∈ ["A", "B"], lookupResolved
      (generate cfgMy 4
        [.interfaceDef ⟨"A", some ["B"], some [⟨"x", .named "Int", none⟩]⟩,
         .interfaceDef ⟨"B", some ["A"],
           some [⟨"y", .named "Int", none⟩]⟩]).1.resolved s = none :=
  c2_dependency_cycle cfgMy 4
    [.interfaceDef ⟨"A", some ["B"], some [⟨"x", .named "Int", none⟩]⟩,
     .interfaceDef ⟨"B", some ["A"], some [⟨"y", .named "Int", none⟩]⟩]
    ["A", "B"] (by decide) (by decide) (by decide) (by decide)

/-- A failed interface write leaves the resolved map untouched. -/
theorem writeInterfaceFragment_resolved_of_err (cfg : Config) (st : GenState)
    (d : InterfaceDef) (st' : GenState) (e : FragmentGeneratorError)
    (hw : writeInterfaceFragment cfg st d = (st', some e)) :
    st'.resolved = st.resolved := by
  unfold writeInterfaceFragment at hw
  rcases h : interfaceFragmentParts cfg st.scalarTypeNames st.resolved d with
    ⟨lines, res⟩
  rw [h] at hw
  cases res with
  | error e' =>
      simp only [Prod.mk.injEq] at hw
      rw [← hw.1]
  | ok own => simp at hw

/-- A union write never touches the resolved map. -/
theorem writeUnionFragment_resolved (cfg : Config) (st : GenState)
    (d : UnionDef) :
    (writeUnionFragment cfg st d).1.resolved = st.resolved := by
  unfold writeUnionFragment
  rcases h : unionFragmentParts cfg d with ⟨lines, res⟩
  cases res <;> rfl

/-- An object write either fails leaving the map untouched or inserts
exactly one entry under the object's name. -/
theorem writeObjectFragment_resolved (cfg : Config) (st : GenState)
    (d : ObjectDef) :
    ((writeObjectFragment cfg st d).1.resolved = st.resolved ∧
      (writeObjectFragment cfg st d).2.isSome) ∨
    ∃ own, (writeObjectFragment cfg st d).1.resolved =
        insertResolved st.resolved d.name own ∧
      (writeObjectFragment cfg st d).2 = none := by
  unfold writeObjectFragment
  rcases h : objectFragmentParts cfg st.scalarTypeNames st.resolved d with
    ⟨lines, res⟩
  cases res with
  | error e => exact Or.inl ⟨rfl, rfl⟩
  | ok own => exact Or.inr ⟨own, rfl, rfl⟩

/-- An input-object write either fails leaving the map untouched or
inserts exactly one entry under the type's name. -/
theorem writeInputObjectFragment_resolved (cfg : Config) (st : GenState)
    (d : InputObjectDef) :
    ((writeInputObjectFragment cfg st d).1.resolved = st.resolved ∧
      (writeInputObjectFragment cfg st d).2.isSome) ∨
    ∃ own, (writeInputObjectFragment cfg st d).1.resolved =
        insertResolved st.resolved d.name own ∧
      (writeInputObjectFragment cfg st d).2 = none := by
  unfold writeInputObjectFragment
  rcases h : inputObjectFragmentParts cfg st.scalarTypeNames d with
    ⟨lines, res⟩
  cases res with
  | error e => exact Or.inl ⟨rfl, rfl⟩
  | ok own => exact Or.inr ⟨own, rfl, rfl⟩

/-- A writer loop leaves lookups at keys outside its name list
unchanged, whenever each writer step either preserves the map or
inserts under its definition's name. -/
theorem runList_lookup_preserved {α : Type}
    (W : GenState → α → GenState × Option FragmentGeneratorError)
    (nm : α → String)
    (hW : ∀ st d, (W st d).1.resolved = st.resolved ∨
      ∃ own, (W st d).1.resolved = insertResolved st.resolved (nm d) own)
    (st : GenState) (l : List α) (k : String) (hk : ∀ d ∈ l, nm d ≠ k) :
    lookupResolved (runList W st l).1.resolved k =
      lookupResolved st.resolved k := by
  induction l generalizing st with
  | nil => rfl
  | cons d rest ih =>
      unfold runList
      rcases h : W st d with ⟨st1, res⟩
      have hstep : lookupResolved st1.resolved k =
          lookupResolved st.resolved k := by
        rcases hW st d with hsame | ⟨own, hins⟩
        · rw [h] at hsame
          rw [hsame]
        · rw [h] at hins
          rw [hins, lookupResolved_insert_ne st.resolved (nm d) k own
            (fun hc => hk d (List.mem_cons_self d rest) hc.symm)]
      cases res with
      | some e => exact hstep
      | none =>
          rw [ih st1 (fun d' hd' => hk d' (List.mem_cons_of_mem d hd'))]
          exact hstep

/-- A writer loop whose writer never touches the resolved map leaves it
unchanged. -/
theorem runList_resolved_preserved {α : Type}
    (W : GenState → α → GenState × Option FragmentGeneratorError)
    (hW : ∀ st d, (W st d).1.resolved = st.resolved)
    (st : GenState) (l : List α) :
    (runList W st l).1.resolved = st.resolved := by
  induction l generalizing st with
  | nil => rfl
  | cons d rest ih =>
      unfold runList
      rcases h : W st d with ⟨st1, res⟩
      have hstep : st1.resolved = st.resolved := by
        have h0 := hW st d
        rw [h] at h0
        exact h0
      cases res with
      | some e => exact hstep
      | none => rw [ih st1, hstep]

/-- The interface worklist loop leaves lookups at keys outside its
queue's names unchanged. -/
theorem resolveInterfaces_lookup_preserved (cfg : Config) (cap : Nat)
    (queue : List InterfaceDef) (recursions : Nat) (st : GenState)
    (k : String) (hk : ∀ d ∈ queue, d.name ≠ k) :
    lookupResolved
        (resolveInterfaces cfg cap queue recursions st).1.resolved k =
      lookupResolved st.resolved k := by
  revert hk
  induction queue, recursions, st using resolveInterfaces.induct cfg cap with
  | case1 x st => intro hk; rw [resolveInterfaces]
  | case2 d rest recursions st himp st' e hw =>
      intro hk
      rw [resolveInterfaces]
      simp only [himp, hw]
      rw [writeInterfaceFragment_resolved_of_err cfg st d st' e hw]
  | case3 d rest recursions st himp st' hw ih =>
      intro hk
      rw [resolveInterfaces]
      simp only [himp, hw]
      obtain ⟨own, hown⟩ :=
        writeInterfaceFragment_resolved_of_ok cfg st d st' hw
      rw [ih (fun d' hd' => hk d' (List.mem_cons_of_mem d hd')), hown,
        lookupResolved_insert_ne st.resolved d.name k own
          (fun hc => hk d (List.mem_cons_self d rest) hc.symm)]
  | case4 d rest recursions st ns himp hany hcap =>
      intro hk
      rw [resolveInterfaces]
      simp only [himp, hany, if_pos hcap]
      rfl
  | case5 d rest recursions st ns himp hany hcap ih =>
      intro hk
      rw [resolveInterfaces]
      simp only [himp, hany, if_neg hcap]
      apply ih
      intro d' hd'
      rcases List.mem_append.mp hd' with h | h
      · exact hk d' (List.mem_cons_of_mem d h)
      · exact (List.mem_singleton.mp h) ▸ hk d (List.mem_cons_self d rest)
  | case6 d rest recursions st ns himp hany st' e hw =>
      intro hk
      rw [resolveInterfaces]
      simp only [himp, hany, hw]
      show lookupResolved st'.resolved k = lookupResolved st.resolved k
      rw [writeInterfaceFragment_resolved_of_err cfg st d st' e hw]
  | case7 d rest recursions st ns himp hany st' hw ih =>
      intro hk
      rw [resolveInterfaces]
      simp only [himp, hany, hw]
      obtain ⟨own, hown⟩ :=
        writeInterfaceFragment_resolved_of_ok cfg st d st' hw
      show lookupResolved
          (resolveInterfaces cfg cap rest recursions st').1.resolved k =
        lookupResolved st.resolved k
      rw [ih (fun d' hd' => hk d' (List.mem_cons_of_mem d hd')), hown,
        lookupResolved_insert_ne st.resolved d.name k own
          (fun hc => hk d (List.mem_cons_self d rest) hc.symm)]

/-- A whole run leaves lookups at keys it never inserts unchanged. -/
theorem execute_lookup_preserved (cfg : Config) (cap : Nat)
    (ds : List Definition) (st0 : GenState) (k : String)
    (hk : k ∉ resolvedKeyNames ds) :
    lookupResolved (execute cfg cap ds st0).1.resolved k =
      lookupResolved st0.resolved k := by
  have hkI : ∀ d ∈ interfaceDefs ds, d.name ≠ k := by
    intro d hd hc
    exact hk (List.mem_append_left _ (List.mem_append_left _
      (hc ▸ List.mem_map_of_mem InterfaceDef.name hd)))
  have hkO : ∀ d ∈ objectDefs ds, d.name ≠ k := by
    intro d hd hc
    exact hk (List.mem_append_left _ (List.mem_append_right _
      (hc ▸ List.mem_map_of_mem ObjectDef.name hd)))
  have hkIn : ∀ d ∈ inputObjectDefs ds, d.name ≠ k := by
    intro d hd hc
    exact hk (List.mem_append_right _
      (hc ▸ List.mem_map_of_mem InputObjectDef.name hd))
  unfold execute
  rcases h1 : resolveInterfaces cfg cap (interfaceDefs ds) 0
      (withScalars ds st0) with ⟨stA, resA⟩
  have hA : lookupResolved stA.resolved k = lookupResolved st0.resolved k := by
    have hpre := resolveInterfaces_lookup_preserved cfg cap
      (interfaceDefs ds) 0 (withScalars ds st0) k hkI
    rw [h1] at hpre
    exact hpre
  cases resA with
  | some e => exact hA
  | none =>
      dsimp only
      rcases h2 : runList (writeUnionFragment cfg) stA (unionDefs ds) with
        ⟨stB, resB⟩
      have hB : lookupResolved stB.resolved k =
          lookupResolved stA.resolved k := by
        have hpre := runList_resolved_preserved (writeUnionFragment cfg)
          (writeUnionFragment_resolved cfg) stA (unionDefs ds)
        rw [h2] at hpre
        rw [hpre]
      cases resB with
      | some e => dsimp only; rw [hB, hA]
      | none =>
          dsimp only
          rcases h3 : runList (writeObjectFragment cfg) stB (objectDefs ds) with
            ⟨stC, resC⟩
          have hC : lookupResolved stC.resolved k =
              lookupResolved stB.resolved k := by
            have hpre := runList_lookup_preserved (writeObjectFragment cfg)
              ObjectDef.name
              (fun st d => by
                rcases writeObjectFragment_resolved cfg st d with
                  ⟨hsame, _⟩ | ⟨own, hins, _⟩
                · exact Or.inl hsame
                · exact Or.inr ⟨own, hins⟩)
              stB (objectDefs ds) k hkO
            rw [h3] at hpre
            exact hpre
          cases resC with
          | some e => dsimp only; rw [hC, hB, hA]
          | none =>
              dsimp only
              have hpre := runList_lookup_preserved
                (writeInputObjectFragment cfg) InputObjectDef.name
                (fun st d => by
                  rcases writeInputObjectFragment_resolved cfg st d with
                    ⟨hsame, _⟩ | ⟨own, hins, _⟩
                  · exact Or.inl hsame
                  · exact Or.inr ⟨own, hins⟩)
                stC (inputObjectDefs ds) k hkIn
              rw [hpre, hC, hB, hA]

/-- A successful pass of the worklist loop inserts exactly one resolved
entry per queued interface: the final key multiset is the queue's names
plus the initial keys (given those are all distinct). -/
theorem resolveInterfaces_keys (cfg : Config) (cap : Nat)
    (queue : List InterfaceDef) (recursions : Nat) (st : GenState)
    (st' : GenState)
    (hnd : (queue.map InterfaceDef.name ++ st.resolved.map Prod.fst).Nodup)
    (hok : resolveInterfaces cfg cap queue recursions st = (st', none)) :
    List.Perm (st'.resolved.map Prod.fst)
      (queue.map InterfaceDef.name ++ st.resolved.map Prod.fst) := by
  revert st' hnd hok
  induction queue, recursions, st using resolveInterfaces.induct cfg cap with
  | case1 x st =>
      intro st' hnd hok
      rw [resolveInterfaces] at hok
      cases hok
      simp
  | case2 d rest recursions st himp st'' e hw =>
      intro st' hnd hok
      rw [resolveInterfaces] at hok
      simp only [himp, hw] at hok
      simp at hok
  | case3 d rest recursions st himp st'' hw ih =>
      intro st' hnd hok
      rw [resolveInterfaces] at hok
      simp only [himp, hw] at hok
      obtain ⟨own, hown⟩ :=
        writeInterfaceFragment_resolved_of_ok cfg st d st'' hw
      simp only [List.map_cons, List.cons_append, List.nodup_cons] at hnd
      have hfresh : d.name ∉ st.resolved.map Prod.fst := by
        intro hc
        exact hnd.1 (List.mem_append_right _ hc)
      have hkeys : st''.resolved.map Prod.fst =
          d.name :: st.resolved.map Prod.fst := by
        rw [hown]
        exact insertResolved_keys_of_fresh st.resolved d.name own hfresh
      have hnd'' : (rest.map InterfaceDef.name ++
          st''.resolved.map Prod.fst).Nodup := by
        rw [hkeys]
        exact List.perm_middle.symm.nodup (List.nodup_cons.mpr hnd)
      have hperm := ih st' hnd'' hok
      rw [hkeys] at hperm
      exact hperm.trans List.perm_middle
  | case4 d rest recursions st ns himp hany hcap =>
      intro st' hnd hok
      rw [resolveInterfaces] at hok
      simp [himp, hany, hcap] at hok
  | case5 d rest recursions st ns himp hany hcap ih =>
      intro st' hnd hok
      rw [resolveInterfaces] at hok
      simp only [himp, hany, if_neg hcap] at hok
      have hpermQ : List.Perm
          ((rest ++ [d]).map InterfaceDef.name ++ st.resolved.map Prod.fst)
          ((d :: rest).map InterfaceDef.name ++ st.resolved.map Prod.fst) := by
        simp only [List.map_append, List.map_cons, List.map_nil]
        exact (List.perm_append_singleton d.name
          (rest.map InterfaceDef.name)).append_right _
      have hnd' : ((rest ++ [d]).map InterfaceDef.name ++
          st.resolved.map Prod.fst).Nodup := hpermQ.symm.nodup hnd
      exact (ih st' hnd' hok).trans hpermQ
  | case6 d rest recursions st ns himp hany st'' e hw =>
      intro st' hnd hok
      rw [resolveInterfaces] at hok
      simp only [himp, hany, hw] at hok
      simp at hok
  | case7 d rest recursions st ns himp hany st'' hw ih =>
      intro st' hnd hok
      rw [resolveInterfaces] at hok
      simp only [himp, hany, hw] at hok
      obtain ⟨own, hown⟩ :=
        writeInterfaceFragment_resolved_of_ok cfg st d st'' hw
      simp only [List.map_cons, List.cons_append, List.nodup_cons] at hnd
      have hfresh : d.name ∉ st.resolved.map Prod.fst := by
        intro hc
        exact hnd.1 (List.mem_append_right _ hc)
      have hkeys : st''.resolved.map Prod.fst =
          d.name :: st.resolved.map Prod.fst := by
        rw [hown]
        exact insertResolved_keys_of_fresh st.resolved d.name own hfresh
      have hnd'' : (rest.map InterfaceDef.name ++
          st''.resolved.map Prod.fst).Nodup := by
        rw [hkeys]
        exact List.perm_middle.symm.nodup (List.nodup_cons.mpr hnd)
      have hperm := ih st' hnd'' hok
      rw [hkeys] at hperm
      exact hperm.trans List.perm_middle

/-- A successful writer loop inserts exactly one resolved entry per
processed definition, whenever the writer inserts under its
definition's name on success. -/
theorem runList_keys {α : Type}
    (W : GenState → α → GenState × Option FragmentGeneratorError)
    (nm : α → String)
    (hW : ∀ st d st1, W st d = (st1, none) →
      ∃ own, st1.resolved = insertResolved st.resolved (nm d) own)
    (l : List α) (st : GenState) (st' : GenState)
    (hnd : (l.map nm ++ st.resolved.map Prod.fst).Nodup)
    (hok : runList W st l = (st', none)) :
    List.Perm (st'.resolved.map Prod.fst)
      (l.map nm ++ st.resolved.map Prod.fst) := by
  induction l generalizing st with
  | nil =>
      rw [runList] at hok
      cases hok
      simp
  | cons d rest ih =>
      rw [runList] at hok
      rcases h : W st d with ⟨st1, res⟩
      rw [h] at hok
      cases res with
      | some e => simp at hok
      | none =>
          obtain ⟨own, hown⟩ := hW st d st1 h
          simp only [List.map_cons, List.cons_append, List.nodup_cons] at hnd
          have hfresh : nm d ∉ st.resolved.map Prod.fst := by
            intro hc
            exact hnd.1 (List.mem_append_right _ hc)
          have hkeys : st1.resolved.map Prod.fst =
              nm d :: st.resolved.map Prod.fst := by
            rw [hown]
            exact insertResolved_keys_of_fresh st.resolved (nm d) own hfresh
          have hnd1 : (rest.map nm ++ st1.resolved.map Prod.fst).Nodup := by
            rw [hkeys]
            exact List.perm_middle.symm.nodup (List.nodup_cons.mpr hnd)
          have hperm := ih st1 hnd1 hok
          rw [hkeys] at hperm
          exact hperm.trans List.perm_middle

/-- A successful whole run inserts exactly one resolved entry per
interface, object and input-object definition and none per union: the
final key multiset is the initial keys plus those names (given the
names and keys are pairwise distinct, as the registry guarantees). -/
theorem execute_keys (cfg : Config) (cap : Nat) (ds : List Definition)
    (st0 : GenState) (stF : GenState)
    (hnd : (resolvedKeyNames ds ++ st0.resolved.map Prod.fst).Nodup)
    (hok : execute cfg cap ds st0 = (stF, none)) :
    List.Perm (stF.resolved.map Prod.fst)
      (resolvedKeyNames ds ++ st0.resolved.map Prod.fst) := by
  have hndc := List.nodup_iff_count_le_one.mp hnd
  unfold execute at hok
  rcases h1 : resolveInterfaces cfg cap (interfaceDefs ds) 0
      (withScalars ds st0) with ⟨stA, resA⟩
  rw [h1] at hok
  cases resA with
  | some e => simp at hok
  | none =>
      dsimp only at hok
      rcases h2 : runList (writeUnionFragment cfg) stA (unionDefs ds) with
        ⟨stB, resB⟩
      rw [h2] at hok
      cases resB with
      | some e => simp at hok
      | none =>
          dsimp only at hok
          rcases h3 : runList (writeObjectFragment cfg) stB (objectDefs ds) with
            ⟨stC, resC⟩
          rw [h3] at hok
          cases resC with
          | some e => simp at hok
          | none =>
              dsimp only at hok
              have hndA : ((interfaceDefs ds).map InterfaceDef.name ++
                  st0.resolved.map Prod.fst).Nodup := by
                rw [List.nodup_iff_count_le_one]
                intro a
                have := hndc a
                simp only [resolvedKeyNames, List.count_append] at this ⊢
                omega
              have hkA : List.Perm (stA.resolved.map Prod.fst)
                  ((interfaceDefs ds).map InterfaceDef.name ++
                    st0.resolved.map Prod.fst) :=
                resolveInterfaces_keys cfg cap (interfaceDefs ds) 0
                  (withScalars ds st0) stA hndA h1
              have hkB : stB.resolved = stA.resolved := by
                have hpre := runList_resolved_preserved (writeUnionFragment cfg)
                  (writeUnionFragment_resolved cfg) stA (unionDefs ds)
                rw [h2] at hpre
                exact hpre
              have hndC : ((objectDefs ds).map ObjectDef.name ++
                  stB.resolved.map Prod.fst).Nodup := by
                rw [List.nodup_iff_count_le_one]
                intro a
                have h0 := hndc a
                have hcA := hkA.count_eq a
                rw [hkB]
                simp only [resolvedKeyNames, List.count_append] at h0 hcA ⊢
                omega
              have hkC := runList_keys (writeObjectFragment cfg) ObjectDef.name
                (fun st d st1 hone => by
                  rcases writeObjectFragment_resolved cfg st d with
                    ⟨hsame, hsome⟩ | ⟨own, hins, _⟩
                  · rw [hone] at hsome
                    simp at hsome
                  · rw [hone] at hins
                    exact ⟨own, hins⟩)
                (objectDefs ds) stB stC hndC h3
              have hndD : ((inputObjectDefs ds).map InputObjectDef.name ++
                  stC.resolved.map Prod.fst).Nodup := by
                rw [List.nodup_iff_count_le_one]
                intro a
                have h0 := hndc a
                have hcA := hkA.count_eq a
                have hcC := hkC.count_eq a
                rw [hkB] at hcC
                simp only [resolvedKeyNames, List.count_append] at h0 hcA hcC ⊢
                omega
              have hkF := runList_keys (writeInputObjectFragment cfg)
                InputObjectDef.name
                (fun st d st1 hone => by
                  rcases writeInputObjectFragment_resolved cfg st d with
                    ⟨hsame, hsome⟩ | ⟨own, hins, _⟩
                  · rw [hone] at hsome
                    simp at hsome
                  · rw [hone] at hins
                    exact ⟨own, hins⟩)
                (inputObjectDefs ds) stC stF hndD hok
              rw [List.perm_iff_count]
              intro a
              have hcA := hkA.count_eq a
              have hcC := hkC.count_eq a
              have hcF := hkF.count_eq a
              rw [hkB] at hcC
              simp only [resolvedKeyNames, List.count_append] at hcA hcC hcF ⊢
              omega

/-- C9 amended: the resolved map only grows — lookups at keys the run
never emits are left exactly as they were, a successful run over
distinct type names ends with exactly one entry per interface, object
and input-object definition (and none per union) on top of the initial
entries, and looking up a not-yet-resolved implemented interface is the
hard schema error, never a silently empty field set. -/
theorem c9_resolved_map_discipline :
    (∀ (cfg : Config) (cap : Nat) (ds : List Definition) (st0 : GenState)
        (k : String), k ∉ resolvedKeyNames ds →
      lookupResolved (execute cfg cap ds st0).1.resolved k =
        lookupResolved st0.resolved k) ∧
    (∀ (cfg : Config) (cap : Nat) (ds : List Definition) (st0 stF : GenState),
      (resolvedKeyNames ds ++ st0.resolved.map Prod.fst).Nodup →
      execute cfg cap ds st0 = (stF, none) →
      stF.resolved.length =
        (resolvedKeyNames ds).length + st0.resolved.length) ∧
    (∀ (resolved : List (String × List String)) (ns : List String)
        (n : String), n ∈ ns → lookupResolved resolved n = none →
      inheritedFields resolved (some ns) =
        .error unresolvedInterfaceError) := by
  refine ⟨?_, ?_, ?_⟩
  · intro cfg cap ds st0 k hk
    exact execute_lookup_preserved cfg cap ds st0 k hk
  · intro cfg cap ds st0 stF hnd hok
    have hperm := execute_keys cfg cap ds st0 stF hnd hok
    have hlen := hperm.length_eq
    simpa using hlen
  · intro resolved ns n hn hnone
    unfold inheritedFields
    exact inheritedFieldsGo_error resolved ns n hn hnone

/-- C9 amended witness: a run over one object type preserves a
pre-existing entry under an unrelated key, adds exactly one entry, and
an unresolved interface lookup errors. -/
theorem c9_witness :
    (lookupResolved (execute cfgMy 4
        [.objectDef ⟨"A", none, some [⟨"id", .named "ID", none⟩]⟩]
        { resolved := [("Z", ["w"])], scalarTypeNames := builtinScalarNames,
          out := [] }).1.resolved "Z" =
      lookupResolved [("Z", ["w"])] "Z") ∧
    ((GenState.mk [("A", ["id"])] builtinScalarNames
        ["fragment MyAFields on A \x7b", "  __typename", "  id", "\x7d",
         ""]).resolved.length =
      (resolvedKeyNames
        [.objectDef ⟨"A", none, some [⟨"id", .named "ID", none⟩]⟩]).length +
        (initState.resolved.length)) ∧
    (inheritedFields [("Rect", ["width"])] (some ["Missing"]) =
      .error unresolvedInterfaceError) := by
  refine ⟨?_, ?_, ?_⟩
  · exact c9_resolved_map_discipline.1 cfgMy 4
      [.objectDef ⟨"A", none, some [⟨"id", .named "ID", none⟩]⟩]
      { resolved := [("Z", ["w"])], scalarTypeNames := builtinScalarNames,
        out := [] } "Z" (by decide)
  · apply c9_resolved_map_discipline.2.1 cfgMy 4
      [.objectDef ⟨"A", none, some [⟨"id", .named "ID", none⟩]⟩] initState
      (GenState.mk [("A", ["id"])] builtinScalarNames
        ["fragment MyAFields on A \x7b", "  __typename", "  id", "\x7d", ""])
      (by decide)
    simp [execute, withScalars, resolveInterfaces, runList, interfaceDefs,
      unionDefs, objectDefs, inputObjectDefs, enumDefs, scalarDefs,
      writeObjectFragment, objectFragmentParts, writeFields, writeFieldsLoop,
      writeField, writeFieldWithNamedType, renderArglist, inheritedFields,
      inheritedFieldsGo, lookupResolved, insertResolved, fragmentName, cfgMy,
      initState, builtinScalarNames]
  · exact c9_resolved_map_discipline.2.2 [("Rect", ["width"])] ["Missing"]
      "Missing" (by decide) (by decide)

/-- Field rendering depends on the scalar set only through
membership. -/
theorem writeFieldWithNamedType_congr (cfg : Config) (s1 s2 : List String)
    (hmem : ∀ n : String, n ∈ s1 ↔ n ∈ s2) (fieldName typeName : String)
    (args : Option (List ArgumentDef)) :
    writeFieldWithNamedType cfg s1 fieldName typeName args =
      writeFieldWithNamedType cfg s2 fieldName typeName args := by
  by_cases h : typeName ∈ s1
  · simp [writeFieldWithNamedType, h, (hmem typeName).mp h]
  · have h2 : typeName ∉ s2 := fun hc => h ((hmem typeName).mpr hc)
    simp [writeFieldWithNamedType, h, h2]

/-- Wrapped-field rendering depends on the scalar set only through
membership. -/
theorem writeField_congr (cfg : Config) (s1 s2 : List String)
    (hmem : ∀ n : String, n ∈ s1 ↔ n ∈ s2) (fieldName : String)
    (ty : GType) (args : Option (List ArgumentDef)) :
    writeField cfg s1 fieldName ty args =
      writeField cfg s2 fieldName ty args := by
  rw [writeField_eq_underlying, writeField_eq_underlying]
  exact writeFieldWithNamedType_congr cfg s1 s2 hmem fieldName
    (underlyingName ty) args

/-- The field loop depends on the scalar set only through
membership. -/
theorem writeFieldsLoop_congr (cfg : Config) (s1 s2 : List String)
    (hmem : ∀ n : String, n ∈ s1 ↔ n ∈ s2) (inherited : List String)
    (fs : List FieldDef) :
    writeFieldsLoop cfg s1 inherited fs =
      writeFieldsLoop cfg s2 inherited fs := by
  rw [writeFieldsLoop_eq, writeFieldsLoop_eq]
  congr 1
  apply congrArg
  apply List.map_congr_left
  intro f _
  exact writeField_congr cfg s1 s2 hmem f.name f.ty f.args

/-- The input-field loop depends on the scalar set only through
membership. -/
theorem writeInputFieldsLoop_congr (cfg : Config) (s1 s2 : List String)
    (hmem : ∀ n : String, n ∈ s1 ↔ n ∈ s2) (fs : List InputFieldDef) :
    writeInputFieldsLoop cfg s1 fs = writeInputFieldsLoop cfg s2 fs := by
  rw [writeInputFieldsLoop_eq, writeInputFieldsLoop_eq]
  congr 1
  apply congrArg
  apply List.map_congr_left
  intro f _
  exact writeField_congr cfg s1 s2 hmem f.name f.ty none

/-- Inherited-field accumulation depends on the resolved map only
through keyed lookup. -/
theorem inheritedFieldsGo_congr (r1 r2 : List (String × List String))
    (hlook : ∀ k : String, lookupResolved r1 k = lookupResolved r2 k)
    (ns : List String) :
    inheritedFieldsGo r1 ns = inheritedFieldsGo r2 ns := by
  induction ns with
  | nil => rfl
  | cons n rest ih =>
      unfold inheritedFieldsGo
      rw [hlook n, ih]

/-- The `write_fields` method depends on the containers only through
membership and keyed lookup. -/
theorem writeFields_congr (cfg : Config) (s1 s2 : List String)
    (r1 r2 : List (String × List String))
    (hmem : ∀ n : String, n ∈ s1 ↔ n ∈ s2)
    (hlook : ∀ k : String, lookupResolved r1 k = lookupResolved r2 k)
    (fieldsOpt : Option (List FieldDef)) (impls : Option (List String)) :
    writeFields cfg s1 r1 fieldsOpt impls =
      writeFields cfg s2 r2 fieldsOpt impls := by
  cases fieldsOpt with
  | none => rfl
  | some fs =>
      cases impls with
      | none =>
          simp [writeFields, inheritedFields,
            writeFieldsLoop_congr cfg s1 s2 hmem]
      | some ns =>
          simp only [writeFields, inheritedFields]
          rw [inheritedFieldsGo_congr r1 r2 hlook ns]
          cases inheritedFieldsGo r2 ns with
          | error e => rfl
          | ok inh => simp [writeFieldsLoop_congr cfg s1 s2 hmem]

/-- The interface fragment text depends on the containers only through
membership and keyed lookup. -/
theorem interfaceFragmentParts_congr (cfg : Config) (s1 s2 : List String)
    (r1 r2 : List (String × List String))
    (hmem : ∀ n : String, n ∈ s1 ↔ n ∈ s2)
    (hlook : ∀ k : String, lookupResolved r1 k = lookupResolved r2 k)
    (d : InterfaceDef) :
    interfaceFragmentParts cfg s1 r1 d = interfaceFragmentParts cfg s2 r2 d := by
  unfold interfaceFragmentParts
  rw [writeFields_congr cfg s1 s2 r1 r2 hmem hlook d.fields d.implements]

/-- The object fragment text depends on the containers only through
membership and keyed lookup. -/
theorem objectFragmentParts_congr (cfg : Config) (s1 s2 : List String)
    (r1 r2 : List (String × List String))
    (hmem : ∀ n : String, n ∈ s1 ↔ n ∈ s2)
    (hlook : ∀ k : String, lookupResolved r1 k = lookupResolved r2 k)
    (d : ObjectDef) :
    objectFragmentParts cfg s1 r1 d = objectFragmentParts cfg s2 r2 d := by
  unfold objectFragmentParts
  rw [writeFields_congr cfg s1 s2 r1 r2 hmem hlook d.fields d.implements]

/-- The input-object fragment text depends on the scalar set only
through membership. -/
theorem inputObjectFragmentParts_congr (cfg : Config) (s1 s2 : List String)
    (hmem : ∀ n : String, n ∈ s1 ↔ n ∈ s2) (d : InputObjectDef) :
    inputObjectFragmentParts cfg s1 d = inputObjectFragmentParts cfg s2 d := by
  unfold inputObjectFragmentParts writeInputFields
  cases d.fields with
  | none => rfl
  | some fs => simp [writeInputFieldsLoop_congr cfg s1 s2 hmem]

/-- Insertion of the same entry preserves lookup equivalence. -/
theorem lookup_insert_congr (r1 r2 : List (String × List String))
    (hlook : ∀ k : String, lookupResolved r1 k = lookupResolved r2 k)
    (nm : String) (own : List String) (k : String) :
    lookupResolved (insertResolved r1 nm own) k =
      lookupResolved (insertResolved r2 nm own) k := by
  by_cases h : k = nm
  · subst h
    rw [lookupResolved_insert_self, lookupResolved_insert_self]
  · rw [lookupResolved_insert_ne r1 nm k own h,
      lookupResolved_insert_ne r2 nm k own h]
    exact hlook k

/-- The interface writer sends equivalent states to equivalent states
with identical results. -/
theorem writeInterfaceFragment_congr (cfg : Config) (st1 st2 : GenState)
    (h : StateEquiv st1 st2) (d : InterfaceDef) :
    (writeInterfaceFragment cfg st1 d).2 = (writeInterfaceFragment cfg st2 d).2 ∧
    StateEquiv (writeInterfaceFragment cfg st1 d).1
      (writeInterfaceFragment cfg st2 d).1 := by
  obtain ⟨hout, hmem, hlook⟩ := h
  unfold writeInterfaceFragment
  rw [interfaceFragmentParts_congr cfg st1.scalarTypeNames st2.scalarTypeNames
    st1.resolved st2.resolved hmem hlook d]
  rcases hp : interfaceFragmentParts cfg st2.scalarTypeNames st2.resolved d with
    ⟨lines, res⟩
  cases res with
  | error e => exact ⟨rfl, by rw [hout], hmem, hlook⟩
  | ok own =>
      exact ⟨rfl, by rw [hout], hmem,
        fun k => lookup_insert_congr st1.resolved st2.resolved hlook d.name own k⟩

/-- The union writer sends equivalent states to equivalent states with
identical results. -/
theorem writeUnionFragment_congr (cfg : Config) (st1 st2 : GenState)
    (h : StateEquiv st1 st2) (d : UnionDef) :
    (writeUnionFragment cfg st1 d).2 = (writeUnionFragment cfg st2 d).2 ∧
    StateEquiv (writeUnionFragment cfg st1 d).1
      (writeUnionFragment cfg st2 d).1 := by
  obtain ⟨hout, hmem, hlook⟩ := h
  unfold writeUnionFragment
  rcases hp : unionFragmentParts cfg d with ⟨lines, res⟩
  cases res with
  | error e => exact ⟨rfl, by rw [hout], hmem, hlook⟩
  | ok u => exact ⟨rfl, by rw [hout], hmem, hlook⟩

/-- The object writer sends equivalent states to equivalent states with
identical results. -/
theorem writeObjectFragment_congr (cfg : Config) (st1 st2 : GenState)
    (h : StateEquiv st1 st2) (d : ObjectDef) :
    (writeObjectFragment cfg st1 d).2 = (writeObjectFragment cfg st2 d).2 ∧
    StateEquiv (writeObjectFragment cfg st1 d).1
      (writeObjectFragment cfg st2 d).1 := by
  obtain ⟨hout, hmem, hlook⟩ := h
  unfold writeObjectFragment
  rw [objectFragmentParts_congr cfg st1.scalarTypeNames st2.scalarTypeNames
    st1.resolved st2.resolved hmem hlook d]
  rcases hp : objectFragmentParts cfg st2.scalarTypeNames st2.resolved d with
    ⟨lines, res⟩
  cases res with
  | error e => exact ⟨rfl, by rw [hout], hmem, hlook⟩
  | ok own =>
      exact ⟨rfl, by rw [hout], hmem,
        fun k => lookup_insert_congr st1.resolved st2.resolved hlook d.name own k⟩

/-- The input-object writer sends equivalent states to equivalent
states with identical results. -/
theorem writeInputObjectFragment_congr (cfg : Config) (st1 st2 : GenState)
    (h : StateEquiv st1 st2) (d : InputObjectDef) :
    (writeInputObjectFragment cfg st1 d).2 =
      (writeInputObjectFragment cfg st2 d).2 ∧
    StateEquiv (writeInputObjectFragment cfg st1 d).1
      (writeInputObjectFragment cfg st2 d).1 := by
  obtain ⟨hout, hmem, hlook⟩ := h
  unfold writeInputObjectFragment
  rw [inputObjectFragmentParts_congr cfg st1.scalarTypeNames
    st2.scalarTypeNames hmem d]
  rcases hp : inputObjectFragmentParts cfg st2.scalarTypeNames d with
    ⟨lines, res⟩
  cases res with
  | error e => exact ⟨rfl, by rw [hout], hmem, hlook⟩
  | ok own =>
      exact ⟨rfl, by rw [hout], hmem,
        fun k => lookup_insert_congr st1.resolved st2.resolved hlook d.name own k⟩

/-- A writer loop sends equivalent states to equivalent states with
identical results, whenever its writer does. -/
theorem runList_congr {α : Type}
    (W : GenState → α → GenState × Option FragmentGeneratorError)
    (hW : ∀ st1 st2 d, StateEquiv st1 st2 →
      (W st1 d).2 = (W st2 d).2 ∧ StateEquiv (W st1 d).1 (W st2 d).1)
    (l : List α) (st1 st2 : GenState) (h : StateEquiv st1 st2) :
    (runList W st1 l).2 = (runList W st2 l).2 ∧
    StateEquiv (runList W st1 l).1 (runList W st2 l).1 := by
  induction l generalizing st1 st2 with
  | nil => exact ⟨rfl, h⟩
  | cons d rest ih =>
      unfold runList
      obtain ⟨hres, hst⟩ := hW st1 st2 d h
      rcases h1 : W st1 d with ⟨st1a, res1⟩
      rcases h2 : W st2 d with ⟨st2a, res2⟩
      rw [h1, h2] at hres hst
      simp only at hres hst
      rw [← hres]
      cases res1 with
      | some e => exact ⟨rfl, hst⟩
      | none => exact ih st1a st2a hst

/-- The interface worklist loop sends equivalent states to equivalent
states with identical results. -/
theorem resolveInterfaces_congr (cfg : Config) (cap : Nat)
    (queue : List InterfaceDef) (recursions : Nat) (st1 : GenState)
    (st2 : GenState) (h : StateEquiv st1 st2) :
    (resolveInterfaces cfg cap queue recursions st1).2 =
      (resolveInterfaces cfg cap queue recursions st2).2 ∧
    StateEquiv (resolveInterfaces cfg cap queue recursions st1).1
      (resolveInterfaces cfg cap queue recursions st2).1 := by
  revert st2 h
  induction queue, recursions, st1 using resolveInterfaces.induct cfg cap with
  | case1 x st =>
      intro st2 h
      simp only [resolveInterfaces]
      exact ⟨by trivial, h⟩
  | case2 d rest recursions st himp st' e hw =>
      intro st2 h
      obtain ⟨hres, hst⟩ := writeInterfaceFragment_congr cfg st st2 h d
      rcases h2 : writeInterfaceFragment cfg st2 d with ⟨st2a, res2⟩
      rw [hw, h2] at hres hst
      simp only at hres hst
      simp only [resolveInterfaces]
      simp only [himp, hw, h2, ← hres]
      exact ⟨by trivial, hst⟩
  | case3 d rest recursions st himp st' hw ih =>
      intro st2 h
      obtain ⟨hres, hst⟩ := writeInterfaceFragment_congr cfg st st2 h d
      rcases h2 : writeInterfaceFragment cfg st2 d with ⟨st2a, res2⟩
      rw [hw, h2] at hres hst
      simp only at hres hst
      simp only [resolveInterfaces]
      rw [← hres] at h2
      simp only [himp, hw, h2]
      exact ih st2a hst
  | case4 d rest recursions st ns himp hany hcap =>
      intro st2 h
      have hany2 : (ns.any fun n => (lookupResolved st2.resolved n).isNone) =
          true := by
        rw [show (ns.any fun n => (lookupResolved st2.resolved n).isNone) =
            (ns.any fun n => (lookupResolved st.resolved n).isNone) from by
          congr 1
          funext n
          rw [h.2.2 n]]
        exact hany
      simp only [resolveInterfaces]
      simp only [himp, hany, hany2, if_pos hcap]
      exact ⟨by trivial, h⟩
  | case5 d rest recursions st ns himp hany hcap ih =>
      intro st2 h
      have hany2 : (ns.any fun n => (lookupResolved st2.resolved n).isNone) =
          true := by
        rw [show (ns.any fun n => (lookupResolved st2.resolved n).isNone) =
            (ns.any fun n => (lookupResolved st.resolved n).isNone) from by
          congr 1
          funext n
          rw [h.2.2 n]]
        exact hany
      simp only [resolveInterfaces]
      simp only [himp, hany, hany2, if_neg hcap]
      exact ih st2 h
  | case6 d rest recursions st ns himp hany st' e hw =>
      intro st2 h
      have hany2 : (ns.any fun n => (lookupResolved st2.resolved n).isNone) =
          false := by
        rw [show (ns.any fun n => (lookupResolved st2.resolved n).isNone) =
            (ns.any fun n => (lookupResolved st.resolved n).isNone) from by
          congr 1
          funext n
          rw [h.2.2 n]]
        simpa using hany
      obtain ⟨hres, hst⟩ := writeInterfaceFragment_congr cfg st st2 h d
      rcases h2 : writeInterfaceFragment cfg st2 d with ⟨st2a, res2⟩
      rw [hw, h2] at hres hst
      simp only at hres hst
      simp only [resolveInterfaces]
      simp only [himp, hany2, Bool.false_eq_true, if_false, hw, h2, ← hres]
      have hanyr : ¬((ns.any fun n => (lookupResolved st.resolved n).isNone) =
          true) := hany
      simp only [hanyr, if_false]
      exact ⟨by trivial, hst⟩
  | case7 d rest recursions st ns himp hany st' hw ih =>
      intro st2 h
      have hany2 : (ns.any fun n => (lookupResolved st2.resolved n).isNone) =
          false := by
        rw [show (ns.any fun n => (lookupResolved st2.resolved n).isNone) =
            (ns.any fun n => (lookupResolved st.resolved n).isNone) from by
          congr 1
          funext n
          rw [h.2.2 n]]
        simpa using hany
      obtain ⟨hres, hst⟩ := writeInterfaceFragment_congr cfg st st2 h d
      rcases h2 : writeInterfaceFragment cfg st2 d with ⟨st2a, res2⟩
      rw [hw, h2] at hres hst
      simp only at hres hst
      simp only [resolveInterfaces]
      rw [← hres] at h2
      simp only [himp, hany2, Bool.false_eq_true, if_false, hw, h2]
      have hanyr : ¬((ns.any fun n => (lookupResolved st.resolved n).isNone) =
          true) := hany
      simp only [hanyr, if_false]
      exact ih st2a hst

/-- C10: the run is deterministic up to the contents of its hash-backed
containers: two runs over the same definitions, prefix, suffix and
marker option, from states whose scalar sets have the same members and
whose resolved maps give the same keyed lookups (for instance two
iteration orders of the same `HashSet`/`HashMap`), produce identical
results and byte-identical output, and end in equivalent states — the
containers are consulted only through membership and keyed lookup,
never to order output. -/
theorem c10_deterministic_output (cfg : Config) (cap : Nat)
    (ds : List Definition) (st1 st2 : GenState) (h : StateEquiv st1 st2) :
    (execute cfg cap ds st1).2 = (execute cfg cap ds st2).2 ∧
    (execute cfg cap ds st1).1.out = (execute cfg cap ds st2).1.out ∧
    StateEquiv (execute cfg cap ds st1).1 (execute cfg cap ds st2).1 := by
  have h1 : StateEquiv (withScalars ds st1) (withScalars ds st2) := by
    obtain ⟨ho, hm, hl⟩ := h
    exact ⟨ho, fun n => by simp [withScalars, List.mem_append, hm n], hl⟩
  unfold execute
  obtain ⟨hresA, hstA⟩ := resolveInterfaces_congr cfg cap (interfaceDefs ds) 0
    (withScalars ds st1) (withScalars ds st2) h1
  rcases e1 : resolveInterfaces cfg cap (interfaceDefs ds) 0
      (withScalars ds st1) with ⟨stA1, resA1⟩
  rcases e2 : resolveInterfaces cfg cap (interfaceDefs ds) 0
      (withScalars ds st2) with ⟨stA2, resA2⟩
  rw [e1, e2] at hresA hstA
  simp only at hresA hstA
  rw [← hresA]
  cases resA1 with
  | some e => exact ⟨rfl, hstA.1, hstA⟩
  | none =>
      dsimp only
      obtain ⟨hresB, hstB⟩ := runList_congr (writeUnionFragment cfg)
        (fun s1 s2 d hh => writeUnionFragment_congr cfg s1 s2 hh d)
        (unionDefs ds) stA1 stA2 hstA
      rcases e3 : runList (writeUnionFragment cfg) stA1 (unionDefs ds) with
        ⟨stB1, resB1⟩
      rcases e4 : runList (writeUnionFragment cfg) stA2 (unionDefs ds) with
        ⟨stB2, resB2⟩
      rw [e3, e4] at hresB hstB
      simp only at hresB hstB
      rw [← hresB]
      cases resB1 with
      | some e => exact ⟨rfl, hstB.1, hstB⟩
      | none =>
          dsimp only
          obtain ⟨hresC, hstC⟩ := runList_congr (writeObjectFragment cfg)
            (fun s1 s2 d hh => writeObjectFragment_congr cfg s1 s2 hh d)
            (objectDefs ds) stB1 stB2 hstB
          rcases e5 : runList (writeObjectFragment cfg) stB1 (objectDefs ds)
            with ⟨stC1, resC1⟩
          rcases e6 : runList (writeObjectFragment cfg) stB2 (objectDefs ds)
            with ⟨stC2, resC2⟩
          rw [e5, e6] at hresC hstC
          simp only at hresC hstC
          rw [← hresC]
          cases resC1 with
          | some e => exact ⟨rfl, hstC.1, hstC⟩
          | none =>
              dsimp only
              obtain ⟨hresD, hstD⟩ := runList_congr
                (writeInputObjectFragment cfg)
                (fun s1 s2 d hh => writeInputObjectFragment_congr cfg s1 s2 hh d)
                (inputObjectDefs ds) stC1 stC2 hstC
              exact ⟨hresD, hstD.1, hstD⟩

/-- C10 witness: two states carrying the same resolved entries and
scalar names in different storage orders drive a run to identical
results and identical output bytes. -/
theorem c10_witness :
    (execute cfgMy 4
        [.objectDef ⟨"Q", none,
          some [⟨"a", .named "A", none⟩, ⟨"n", .named "Int", none⟩]⟩]
        ⟨[("A", ["x"]), ("B", ["y"])], ["Int", "Float"], []⟩).2 =
      (execute cfgMy 4
        [.objectDef ⟨"Q", none,
          some [⟨"a", .named "A", none⟩, ⟨"n", .named "Int", none⟩]⟩]
        ⟨[("B", ["y"]), ("A", ["x"])], ["Float", "Int"], []⟩).2 ∧
    (execute cfgMy 4
        [.objectDef ⟨"Q", none,
          some [⟨"a", .named "A", none⟩, ⟨"n", .named "Int", none⟩]⟩]
        ⟨[("A", ["x"]), ("B", ["y"])], ["Int", "Float"], []⟩).1.out =
      (execute cfgMy 4
        [.objectDef ⟨"Q", none,
          some [⟨"a", .named "A", none⟩, ⟨"n", .named "Int", none⟩]⟩]
        ⟨[("B", ["y"]), ("A", ["x"])], ["Float", "Int"], []⟩).1.out := by
  have hequiv : StateEquiv
      ⟨[("A", ["x"]), ("B", ["y"])], ["Int", "Float"], []⟩
      ⟨[("B", ["y"]), ("A", ["x"])], ["Float", "Int"], []⟩ := by
    refine ⟨rfl, ?_, ?_⟩
    · intro n
      simp only [List.mem_cons, List.not_mem_nil, or_false]
      tauto
    · intro k
      by_cases hA : k = "A"
      · subst hA
        rfl
      · by_cases hB : k = "B"
        · subst hB
          rfl
        · rw [lookupResolved_eq_none _ _ (by simp [hA, hB]),
            lookupResolved_eq_none _ _ (by simp [hA, hB])]
  have happ := c10_deterministic_output cfgMy 4
    [.objectDef ⟨"Q", none,
      some [⟨"a", .named "A", none⟩, ⟨"n", .named "Int", none⟩]⟩]
    ⟨[("A", ["x"]), ("B", ["y"])], ["Int", "Float"], []⟩
    ⟨[("B", ["y"]), ("A", ["x"])], ["Float", "Int"], []⟩ hequiv
  exact ⟨happ.1, happ.2.1⟩

/-- C9 counterexample: the claim states the resolved map receives
exactly one insertion per emitted type.  Running the generator on
`union U = A` emits one full union fragment yet performs no insertion at
all: the resolved map is still empty at the end of the run. -/
theorem c9_counterexample :
    (generate cfgMy 4 [.unionDef ⟨"U", some ["A"]⟩]).1.resolved = [] ∧
    (generate cfgMy 4 [.unionDef ⟨"U", some ["A"]⟩]).1.out ≠ [] ∧
    (generate cfgMy 4 [.unionDef ⟨"U", some ["A"]⟩]).2 = none := by
  refine ⟨?_, ?_, ?_⟩ <;>
    simp [generate, execute, withScalars, resolveInterfaces, runList, interfaceDefs,
      unionDefs, objectDefs, inputObjectDefs, enumDefs, scalarDefs,
      writeUnionFragment, unionFragmentParts, fragmentName, cfgMy, initState]

end Fraggen
